import Mathlib

/-!
Creation-info registry of the Vulkan driver.

A shallow embedding of `renderdoc/driver/vulkan/vk_info.h`: the identifier-keyed registry
`VulkanCreationInfo` with its bulk `erase`, the shader-reflection cache of `ShaderModule`, and
the `DescSetLayout::Binding` value type with its owned immutable-sampler array.

Conventions of the embedding:

* `std::map<K, V>` is a list of key/value pairs in strictly ascending key order, the order being
  the comparison the C++ map is instantiated with (`operator<` of the key type).
* The identifier type `ResourceId`, the string type `rdcstr` and the descriptor value types are
  declared in headers other than `vk_info.h`; they are type parameters.  `ResourceId` and `rdcstr`
  carry a linear order (their `operator<`), and `default` stands for a default-constructed value
  (`ResourceId()` is the null identifier).
* Arrays allocated with `new[]` live in an explicit heap; a pointer is `none` (NULL) or the
  address of a block.  Operations whose C++ behaviour is undefined return `none`.
* `DescSetLayout::operator==`, `DescSetLayout::CreateBindingsArray` and
  `DescUpdateTemplate::Apply` are declared in `vk_info.h` and defined elsewhere; their
  definitions here follow the specification and say so.
-/

namespace VkInfo

/-! ## std::map -/

section StdMapModel

variable {K V : Type}

/-- A comparison usable as the ordering of a `std::map` in which equivalent keys are equal:
a strict total order. -/
class StrictTotalLt (lt : K → K → Bool) : Prop where
  irrefl : ∀ a, lt a a = false
  trans : ∀ a b c, lt a b = true → lt b c = true → lt a c = true
  total : ∀ a b, lt a b = false → lt b a = false → a = b

/-- Key equivalence of `std::map`: neither key is ordered before the other. -/
def keyEquiv (lt : K → K → Bool) (a b : K) : Bool :=
  !lt a b && !lt b a

/-- The entry list of a `std::map`: strictly ascending keys. -/
def Ascending (lt : K → K → Bool) (l : List (K × V)) : Prop :=
  l.Pairwise (fun a b => lt a.1 b.1 = true)

/-- Value of the first entry whose key is equivalent to `k` (`std::map::find`). -/
def findEntries (lt : K → K → Bool) (k : K) : List (K × V) → Option V
  | [] => none
  | e :: t => if keyEquiv lt k e.1 then some e.2 else findEntries lt k t

/-- Removal of the entry whose key is equivalent to `k`, if there is one (`std::map::erase`). -/
def eraseEntries (lt : K → K → Bool) (k : K) : List (K × V) → List (K × V)
  | [] => []
  | e :: t => if keyEquiv lt k e.1 then t else e :: eraseEntries lt k t

/-- Ordered insertion of `(k, v)`; a list already holding an equivalent key is left as it is. -/
def insertEntries (lt : K → K → Bool) (k : K) (v : V) : List (K × V) → List (K × V)
  | [] => [(k, v)]
  | e :: t =>
    if lt k e.1 then (k, v) :: e :: t
    else if lt e.1 k then e :: insertEntries lt k v t
    else e :: t

theorem keyEquiv_iff_eq (lt : K → K → Bool) [StrictTotalLt lt] (a b : K) :
    keyEquiv lt a b = true ↔ a = b := by
  constructor
  · intro h
    simp only [keyEquiv, Bool.and_eq_true, Bool.not_eq_true'] at h
    exact StrictTotalLt.total a b h.1 h.2
  · rintro rfl
    simp [keyEquiv, @StrictTotalLt.irrefl _ lt _ a]

theorem keyEquiv_eq_false_of_lt (lt : K → K → Bool) [StrictTotalLt lt] {a b : K}
    (h : lt a b = true) : keyEquiv lt a b = false ∧ keyEquiv lt b a = false := by
  simp [keyEquiv, h]

theorem findEntries_eq_none_of_forall (lt : K → K → Bool) (k : K) (l : List (K × V))
    (h : ∀ x ∈ l, keyEquiv lt k x.1 = false) : findEntries lt k l = none := by
  induction l with
  | nil => rfl
  | cons e t ih =>
    have he : keyEquiv lt k e.1 = false := h e (List.mem_cons_self _ _)
    have ht : ∀ x ∈ t, keyEquiv lt k x.1 = false := fun x hx => h x (List.mem_cons_of_mem _ hx)
    simp [findEntries, he, ih ht]

theorem mem_eraseEntries (lt : K → K → Bool) (k : K) (l : List (K × V)) (x : K × V)
    (hx : x ∈ eraseEntries lt k l) : x ∈ l := by
  induction l with
  | nil => cases hx
  | cons e t ih =>
    cases hq : keyEquiv lt k e.1 with
    | true =>
      simp only [eraseEntries, hq, if_true] at hx
      exact List.mem_cons_of_mem _ hx
    | false =>
      simp only [eraseEntries, hq] at hx
      rcases List.mem_cons.mp hx with rfl | hx
      · exact List.mem_cons_self _ _
      · exact List.mem_cons_of_mem _ (ih hx)

theorem ascending_eraseEntries (lt : K → K → Bool) (k : K) (l : List (K × V))
    (h : Ascending lt l) : Ascending lt (eraseEntries lt k l) := by
  induction l with
  | nil => exact h
  | cons e t ih =>
    have hc := List.pairwise_cons.mp h
    cases hq : keyEquiv lt k e.1 with
    | true =>
      simp only [eraseEntries, hq, if_true]
      exact hc.2
    | false =>
      simp only [eraseEntries, hq]
      exact List.pairwise_cons.mpr
        ⟨fun x hx => hc.1 x (mem_eraseEntries lt k t x hx), ih hc.2⟩

theorem mem_insertEntries (lt : K → K → Bool) (k : K) (v : V) (l : List (K × V)) (x : K × V)
    (hx : x ∈ insertEntries lt k v l) : x = (k, v) ∨ x ∈ l := by
  induction l with
  | nil =>
    simp only [insertEntries, List.mem_singleton] at hx
    exact Or.inl hx
  | cons e t ih =>
    cases h1 : lt k e.1 with
    | true =>
      simp only [insertEntries, h1, if_true] at hx
      rcases List.mem_cons.mp hx with rfl | hx
      · exact Or.inl rfl
      · exact Or.inr hx
    | false =>
      cases h2 : lt e.1 k with
      | true =>
        simp only [insertEntries, h1, h2, if_true] at hx
        rcases List.mem_cons.mp hx with rfl | hx
        · exact Or.inr (List.mem_cons_self _ _)
        · rcases ih hx with h | h
          · exact Or.inl h
          · exact Or.inr (List.mem_cons_of_mem _ h)
      | false =>
        simp only [insertEntries, h1, h2] at hx
        exact Or.inr hx

theorem ascending_insertEntries (lt : K → K → Bool) [StrictTotalLt lt] (k : K) (v : V)
    (l : List (K × V)) (h : Ascending lt l) : Ascending lt (insertEntries lt k v l) := by
  induction l with
  | nil => simp [insertEntries, Ascending]
  | cons e t ih =>
    have hc := List.pairwise_cons.mp h
    cases h1 : lt k e.1 with
    | true =>
      simp only [insertEntries, h1, if_true]
      refine List.pairwise_cons.mpr ⟨?_, h⟩
      intro x hx
      rcases List.mem_cons.mp hx with rfl | hx
      · exact h1
      · exact StrictTotalLt.trans _ _ _ h1 (hc.1 x hx)
    | false =>
      cases h2 : lt e.1 k with
      | true =>
        simp only [insertEntries, h1, h2, if_true]
        refine List.pairwise_cons.mpr ⟨?_, ih hc.2⟩
        intro x hx
        rcases mem_insertEntries lt k v t x hx with rfl | hx
        · exact h2
        · exact hc.1 x hx
      | false =>
        simp only [insertEntries, h1, h2]
        exact h

/-- The container `std::map<K, V>` ordered by `lt`. -/
structure StdMap (K V : Type) (lt : K → K → Bool) where
  entries : List (K × V)
  ordered : Ascending lt entries

namespace StdMap

variable {lt : K → K → Bool}

/-- The empty map. -/
def empty : StdMap K V lt :=
  ⟨[], List.Pairwise.nil⟩

/-- Lookup `m.find(k)`: the mapped value, or `none` for `end()`. -/
def find (m : StdMap K V lt) (k : K) : Option V :=
  findEntries lt k m.entries

/-- Removal `m.erase(k)`. -/
def erase (m : StdMap K V lt) (k : K) : StdMap K V lt :=
  ⟨eraseEntries lt k m.entries, ascending_eraseEntries lt k m.entries m.ordered⟩

/-- Insertion `m.insert({k, v})`, which keeps an existing entry for `k`. -/
def insert [StrictTotalLt lt] (m : StdMap K V lt) (k : K) (v : V) : StdMap K V lt :=
  ⟨insertEntries lt k v m.entries, ascending_insertEntries lt k v m.entries m.ordered⟩

/-- Subscript `m[k]`: the value mapped to `k`, a default-constructed value being inserted first
when `k` has no entry.  Returns the referenced value and the map after the call. -/
def index [StrictTotalLt lt] [Inhabited V] (m : StdMap K V lt) (k : K) : V × StdMap K V lt :=
  match m.find k with
  | some v => (v, m)
  | none => (default, m.insert k default)

/-- Membership test `m.count(k) != 0`. -/
def contains (m : StdMap K V lt) (k : K) : Bool :=
  (m.find k).isSome

end StdMap

end StdMapModel

/-! ## The registry `VulkanCreationInfo` -/

section Registry

/-- The comparison `operator<` of `ResourceId`, with which every registry map is ordered. -/
def idLt {Id : Type} [LinearOrder Id] (a b : Id) : Bool :=
  decide (a < b)

theorem idLt_irrefl {Id : Type} [LinearOrder Id] (a : Id) : idLt a a = false := by
  simp [idLt]

theorem idLt_trans {Id : Type} [LinearOrder Id] (a b c : Id) (hab : idLt a b = true)
    (hbc : idLt b c = true) : idLt a c = true := by
  simp only [idLt, decide_eq_true_eq] at hab hbc ⊢
  exact lt_trans hab hbc

theorem idLt_total {Id : Type} [LinearOrder Id] (a b : Id) (hab : idLt a b = false)
    (hba : idLt b a = false) : a = b := by
  simp only [idLt, decide_eq_false_iff_not, not_lt] at hab hba
  exact le_antisymm hba hab

instance idLt_strictTotalLt {Id : Type} [LinearOrder Id] : StrictTotalLt (@idLt Id _) where
  irrefl := idLt_irrefl
  trans := idLt_trans
  total := idLt_total

/-- The value types stored in the registry maps.  Their fields are declared with types of the
Vulkan headers and are never inspected by `erase`, so they are left abstract; the registry of
the source is the instance in which `ShaderModule` and `DescSetLayout` are the structures of
the same name defined below. -/
structure DescriptorTypes where
  Pipeline : Type
  PipelineLayout : Type
  RenderPass : Type
  Framebuffer : Type
  Memory : Type
  Buffer : Type
  BufferView : Type
  Image : Type
  Sampler : Type
  YCbCrSampler : Type
  ImageView : Type
  ShaderModule : Type
  DescSetPool : Type
  rdcstr : Type
  SwapchainInfo : Type
  DescSetLayout : Type
  DescUpdateTemplate : Type

/-- The maps of `struct VulkanCreationInfo`, in declaration order. -/
structure VulkanCreationInfo (Id : Type) [LinearOrder Id] (T : DescriptorTypes) where
  m_Pipeline : StdMap Id T.Pipeline idLt
  m_PipelineLayout : StdMap Id T.PipelineLayout idLt
  m_RenderPass : StdMap Id T.RenderPass idLt
  m_Framebuffer : StdMap Id T.Framebuffer idLt
  m_Memory : StdMap Id T.Memory idLt
  m_Buffer : StdMap Id T.Buffer idLt
  m_BufferView : StdMap Id T.BufferView idLt
  m_Image : StdMap Id T.Image idLt
  m_Sampler : StdMap Id T.Sampler idLt
  m_YCbCrSampler : StdMap Id T.YCbCrSampler idLt
  m_ImageView : StdMap Id T.ImageView idLt
  m_ShaderModule : StdMap Id T.ShaderModule idLt
  m_DescSetPool : StdMap Id T.DescSetPool idLt
  m_Names : StdMap Id T.rdcstr idLt
  m_SwapChain : StdMap Id T.SwapchainInfo idLt
  m_DescSetLayout : StdMap Id T.DescSetLayout idLt
  m_DescUpdateTemplate : StdMap Id T.DescUpdateTemplate idLt
  m_Queue : StdMap Id Nat idLt

namespace VulkanCreationInfo

variable {Id : Type} [LinearOrder Id] {T : DescriptorTypes}

/-- The member function `void erase(ResourceId id)`. -/
def erase (s : VulkanCreationInfo Id T) (id : Id) : VulkanCreationInfo Id T where
  m_Pipeline := s.m_Pipeline.erase id
  m_PipelineLayout := s.m_PipelineLayout.erase id
  m_RenderPass := s.m_RenderPass.erase id
  m_Framebuffer := s.m_Framebuffer.erase id
  m_Memory := s.m_Memory.erase id
  m_Buffer := s.m_Buffer.erase id
  m_BufferView := s.m_BufferView.erase id
  m_Image := s.m_Image.erase id
  m_Sampler := s.m_Sampler.erase id
  m_YCbCrSampler := s.m_YCbCrSampler.erase id
  m_ImageView := s.m_ImageView.erase id
  m_ShaderModule := s.m_ShaderModule.erase id
  m_DescSetPool := s.m_DescSetPool.erase id
  m_Names := s.m_Names.erase id
  m_SwapChain := s.m_SwapChain.erase id
  m_DescSetLayout := s.m_DescSetLayout.erase id
  m_DescUpdateTemplate := s.m_DescUpdateTemplate.erase id
  m_Queue := s.m_Queue.erase id

/-- For each of the fifteen descriptor-kind maps, whether `x` is one of its keys. -/
def kindMembership (s : VulkanCreationInfo Id T) (x : Id) : List Bool :=
  [s.m_Pipeline.contains x, s.m_PipelineLayout.contains x, s.m_RenderPass.contains x,
   s.m_Framebuffer.contains x, s.m_Memory.contains x, s.m_Buffer.contains x,
   s.m_BufferView.contains x, s.m_Image.contains x, s.m_Sampler.contains x,
   s.m_YCbCrSampler.contains x, s.m_ImageView.contains x, s.m_ShaderModule.contains x,
   s.m_DescSetPool.contains x, s.m_DescSetLayout.contains x,
   s.m_DescUpdateTemplate.contains x]

/-- The number of descriptor-kind maps that have `x` as a key. -/
def kindCount (s : VulkanCreationInfo Id T) (x : Id) : Nat :=
  (s.kindMembership x).count true

/-- The registry invariant: an identifier is a key of at most one kind map. -/
def AtMostOneKind (s : VulkanCreationInfo Id T) : Prop :=
  ∀ x, s.kindCount x ≤ 1

/-- The registry with no entries. -/
def empty : VulkanCreationInfo Id T where
  m_Pipeline := StdMap.empty
  m_PipelineLayout := StdMap.empty
  m_RenderPass := StdMap.empty
  m_Framebuffer := StdMap.empty
  m_Memory := StdMap.empty
  m_Buffer := StdMap.empty
  m_BufferView := StdMap.empty
  m_Image := StdMap.empty
  m_Sampler := StdMap.empty
  m_YCbCrSampler := StdMap.empty
  m_ImageView := StdMap.empty
  m_ShaderModule := StdMap.empty
  m_DescSetPool := StdMap.empty
  m_Names := StdMap.empty
  m_SwapChain := StdMap.empty
  m_DescSetLayout := StdMap.empty
  m_DescUpdateTemplate := StdMap.empty
  m_Queue := StdMap.empty

end VulkanCreationInfo

/-- Descriptor value types for concrete registries: every descriptor is a number. -/
abbrev natDescriptors : DescriptorTypes where
  Pipeline := Nat
  PipelineLayout := Nat
  RenderPass := Nat
  Framebuffer := Nat
  Memory := Nat
  Buffer := Nat
  BufferView := Nat
  Image := Nat
  Sampler := Nat
  YCbCrSampler := Nat
  ImageView := Nat
  ShaderModule := Nat
  DescSetPool := Nat
  rdcstr := Nat
  SwapchainInfo := Nat
  DescSetLayout := Nat
  DescUpdateTemplate := Nat

/-- A registry holding pipeline 1, buffers 2 and 5, image 3, a name for pipeline 1 and
queue 4. -/
def sampleRegistry : VulkanCreationInfo Nat natDescriptors :=
  { (VulkanCreationInfo.empty : VulkanCreationInfo Nat natDescriptors) with
    m_Pipeline := ⟨[((1 : Nat), (10 : Nat))], List.pairwise_singleton _ _⟩
    m_Buffer := ⟨[((2 : Nat), (20 : Nat)), (5, 50)],
      List.pairwise_cons.mpr ⟨fun x hx => by
        rw [List.mem_singleton.mp hx]
        decide, List.pairwise_singleton _ _⟩⟩
    m_Image := ⟨[((3 : Nat), (30 : Nat))], List.pairwise_singleton _ _⟩
    m_Names := ⟨[((1 : Nat), (77 : Nat))], List.pairwise_singleton _ _⟩
    m_Queue := ⟨[((4 : Nat), (0 : Nat))], List.pairwise_singleton _ _⟩ }

end Registry

/-! ## The shader-reflection cache of `ShaderModule` -/

section Reflection

/-- The key `struct ShaderModuleReflectionKey`: entry point name and specialising pipeline. -/
structure ShaderModuleReflectionKey (S Id : Type) where
  entryPoint : S
  specialisingPipe : Id

/-- The comparison `ShaderModuleReflectionKey::operator<`. -/
def ShaderModuleReflectionKey.lt {S Id : Type} [LinearOrder S] [LinearOrder Id]
    (this o : ShaderModuleReflectionKey S Id) : Bool :=
  if this.entryPoint ≠ o.entryPoint then decide (this.entryPoint < o.entryPoint)
  else decide (this.specialisingPipe < o.specialisingPipe)

theorem keyLt_eq_true_iff {S Id : Type} [LinearOrder S] [LinearOrder Id]
    (a b : ShaderModuleReflectionKey S Id) :
    a.lt b = true ↔ a.entryPoint < b.entryPoint ∨
      (a.entryPoint = b.entryPoint ∧ a.specialisingPipe < b.specialisingPipe) := by
  unfold ShaderModuleReflectionKey.lt
  by_cases h : a.entryPoint = b.entryPoint
  · simp [h]
  · simp only [ne_eq, h, not_false_eq_true, if_true, decide_eq_true_eq, false_and, or_false]

theorem keyLt_irrefl {S Id : Type} [LinearOrder S] [LinearOrder Id]
    (a : ShaderModuleReflectionKey S Id) : a.lt a = false := by
  simp [ShaderModuleReflectionKey.lt]

theorem keyLt_trans {S Id : Type} [LinearOrder S] [LinearOrder Id]
    (a b c : ShaderModuleReflectionKey S Id) (hab : a.lt b = true) (hbc : b.lt c = true) :
    a.lt c = true := by
  rw [keyLt_eq_true_iff] at hab hbc ⊢
  rcases hab with h1 | ⟨h1, h1p⟩
  · rcases hbc with h2 | ⟨h2, _⟩
    · exact Or.inl (lt_trans h1 h2)
    · exact Or.inl (h2 ▸ h1)
  · rcases hbc with h2 | ⟨h2, h2p⟩
    · exact Or.inl (h1 ▸ h2)
    · exact Or.inr ⟨h1.trans h2, lt_trans h1p h2p⟩

theorem keyLt_total {S Id : Type} [LinearOrder S] [LinearOrder Id]
    (a b : ShaderModuleReflectionKey S Id) (hab : a.lt b = false) (hba : b.lt a = false) :
    a = b := by
  have h1 : ¬ (a.lt b = true) := by simp [hab]
  have h2 : ¬ (b.lt a = true) := by simp [hba]
  rw [keyLt_eq_true_iff] at h1 h2
  push_neg at h1 h2
  have he : a.entryPoint = b.entryPoint := le_antisymm h2.1 h1.1
  have hp : a.specialisingPipe = b.specialisingPipe :=
    le_antisymm (h2.2 he.symm) (h1.2 he)
  cases a
  cases b
  simp only at he hp
  rw [he, hp]

instance ShaderModuleReflectionKey.strictTotalLt {S Id : Type} [LinearOrder S] [LinearOrder Id] :
    StrictTotalLt (@ShaderModuleReflectionKey.lt S Id _ _) where
  irrefl := keyLt_irrefl
  trans := keyLt_trans
  total := keyLt_total

/-- The descriptor `struct ShaderModule`; `R` is `ShaderModuleReflection` and `Spv` is
`rdcspv::Reflector`, both built from types declared in other headers. -/
structure ShaderModule (S Id R Spv : Type) [LinearOrder S] [LinearOrder Id] where
  spirv : Spv
  unstrippedPath : S
  m_Reflections : StdMap (ShaderModuleReflectionKey S Id) R ShaderModuleReflectionKey.lt

/-- The member function `ShaderModuleReflection &GetReflection(const rdcstr &entry,
ResourceId pipe)`: returns the referenced reflection and the module after the call. -/
def ShaderModule.GetReflection {S Id R Spv : Type} [LinearOrder S] [LinearOrder Id]
    [Inhabited Id] [Inhabited R] (this : ShaderModule S Id R Spv) (entry : S) (pipe : Id) :
    R × ShaderModule S Id R Spv :=
  match this.m_Reflections.find ⟨entry, pipe⟩ with
  | some r => (r, this)
  | none =>
    ((this.m_Reflections.index ⟨entry, default⟩).1,
     { this with m_Reflections := (this.m_Reflections.index ⟨entry, default⟩).2 })

/-- The entry point name `main` as a byte string. -/
def mainName : List Nat := [109, 97, 105, 110]

/-- A module whose cache holds for `main` the generic reflection 100 (null pipeline, identifier
0) and the reflection 107 specialised for pipeline 7. -/
def sampleModule : ShaderModule (List Nat) Nat Nat Unit where
  spirv := ()
  unstrippedPath := []
  m_Reflections :=
    ⟨[(⟨mainName, 0⟩, 100), (⟨mainName, 7⟩, 107)],
      List.pairwise_cons.mpr ⟨fun x hx => by
        rw [List.mem_singleton.mp hx]
        decide, List.pairwise_singleton _ _⟩⟩

/-- A module with an empty reflection cache. -/
def emptyModule : ShaderModule (List Nat) Nat Nat Unit where
  spirv := ()
  unstrippedPath := []
  m_Reflections := StdMap.empty

end Reflection

/-! ## `DescSetLayout` and its bindings -/

section Layout

/-- Modelled from the spec: the enumeration `VkDescriptorType` of the Vulkan headers, which
`vk_info.h` only includes; the constructors are the descriptor types of the core API, of which the
default constructor of `Binding` names `VK_DESCRIPTOR_TYPE_UNIFORM_BUFFER`. -/
inductive VkDescriptorType where
  | VK_DESCRIPTOR_TYPE_SAMPLER
  | VK_DESCRIPTOR_TYPE_COMBINED_IMAGE_SAMPLER
  | VK_DESCRIPTOR_TYPE_SAMPLED_IMAGE
  | VK_DESCRIPTOR_TYPE_STORAGE_IMAGE
  | VK_DESCRIPTOR_TYPE_UNIFORM_TEXEL_BUFFER
  | VK_DESCRIPTOR_TYPE_STORAGE_TEXEL_BUFFER
  | VK_DESCRIPTOR_TYPE_UNIFORM_BUFFER
  | VK_DESCRIPTOR_TYPE_STORAGE_BUFFER
  | VK_DESCRIPTOR_TYPE_UNIFORM_BUFFER_DYNAMIC
  | VK_DESCRIPTOR_TYPE_STORAGE_BUFFER_DYNAMIC
  | VK_DESCRIPTOR_TYPE_INPUT_ATTACHMENT
  deriving DecidableEq, Repr

/-- The heap of `ResourceId` arrays: block `a` is live when slot `a` holds `some arr`, and
free when the slot holds `none` or lies beyond the end of the list. -/
structure Heap (Id : Type) where
  blocks : List (Option (List Id))

/-- First-fit placement of a new block: the lowest free slot receives `arr`. -/
def allocIn {Id : Type} (arr : List Id) : List (Option (List Id)) → Nat × List (Option (List Id))
  | [] => (0, [some arr])
  | none :: t => (0, some arr :: t)
  | some b :: t => ((allocIn arr t).1 + 1, some b :: (allocIn arr t).2)

namespace Heap

variable {Id : Type}

/-- The array stored at address `a`, `none` when `a` is not a live block. -/
def read (h : Heap Id) (a : Nat) : Option (List Id) :=
  h.blocks[a]?.join

/-- Replacement of the content of slot `a`. -/
def write (h : Heap Id) (a : Nat) (v : Option (List Id)) : Heap Id :=
  ⟨h.blocks.set a v⟩

/-- The expression `new ResourceId[n]`: a fresh block of `n` default-constructed identifiers;
returns its address and the heap after the allocation. -/
def newArray [Inhabited Id] (h : Heap Id) (n : Nat) : Nat × Heap Id :=
  ((allocIn (List.replicate n default) h.blocks).1,
   ⟨(allocIn (List.replicate n default) h.blocks).2⟩)

/-- The call `memcpy(dst, src, sizeof(ResourceId) * n)`: the first `n` elements of block `src`
overwrite the first `n` elements of block `dst`.  Undefined (`none`) when a block is not live,
is shorter than `n`, or the two ranges overlap. -/
def memcpy (h : Heap Id) (dst src n : Nat) : Option (Heap Id) :=
  match h.read dst, h.read src with
  | some d, some s =>
    if n ≤ d.length ∧ n ≤ s.length ∧ (dst ≠ src ∨ n = 0) then
      some (h.write dst (some (s.take n ++ d.drop n)))
    else none
  | _, _ => none

/-- The statement `delete[] p`: nothing for a null pointer, release of a live block, undefined
(`none`) otherwise. -/
def deleteArray (h : Heap Id) : Option Nat → Option (Heap Id)
  | none => some h
  | some a =>
    match h.read a with
    | some _ => some (h.write a none)
    | none => none

/-- The element assignment `p[i] = x`; undefined (`none`) outside a live block. -/
def store (h : Heap Id) (p i : Nat) (x : Id) : Option (Heap Id) :=
  match h.read p with
  | some arr => if i < arr.length then some (h.write p (some (arr.set i x))) else none
  | none => none

end Heap

/-- The fields of `struct DescSetLayout::Binding`; `immutableSampler` is a pointer, `none`
being `NULL`. -/
structure DescSetLayout.Binding where
  descriptorType : VkDescriptorType
  descriptorCount : Nat
  stageFlags : Nat
  immutableSampler : Option Nat

/-- The fields of `struct DescSetLayout`. -/
structure DescSetLayout where
  bindings : List DescSetLayout.Binding
  dynamicCount : Nat
  flags : Nat

/-- The `Binding` objects of a program state, a reference being an index into `objects`,
together with the heap holding their sampler arrays. -/
structure BindingMemory (Id : Type) where
  objects : List DescSetLayout.Binding
  heap : Heap Id

namespace DescSetLayout

/-- Modelled from the spec: the macro `SAFE_DELETE_ARRAY(p)`, defined in a header that
`vk_info.h` only includes: it releases the array `p` points to and leaves `p` null.  Returns the new
pointer value and the heap. -/
def SAFE_DELETE_ARRAY {Id : Type} (h : Heap Id) (p : Option Nat) : Option (Option Nat × Heap Id) :=
  (h.deleteArray p).map fun h1 => (none, h1)

namespace Binding

open VkDescriptorType

variable {Id : Type}

/-- The default constructor `Binding()`. -/
def init : Binding where
  descriptorType := VK_DESCRIPTOR_TYPE_UNIFORM_BUFFER
  descriptorCount := 1
  stageFlags := 0
  immutableSampler := none

/-- The copy constructor `Binding(const Binding &b)`: returns the constructed object and the
heap after the construction. -/
def copy [Inhabited Id] (h : Heap Id) (b : Binding) : Option (Binding × Heap Id) :=
  let this : Binding :=
    { descriptorType := b.descriptorType
      descriptorCount := b.descriptorCount
      stageFlags := b.stageFlags
      immutableSampler := none }
  match b.immutableSampler with
  | none => some (this, h)
  | some src =>
    let a := h.newArray this.descriptorCount
    (a.2.memcpy a.1 src this.descriptorCount).map fun h2 =>
      ({ this with immutableSampler := some a.1 }, h2)

/-- The assignment `*this = b` for the objects at references `this` and `b`. -/
def assign [Inhabited Id] (m : BindingMemory Id) (this b : Nat) : Option (BindingMemory Id) :=
  if this = b then some m
  else
    match m.objects[this]?, m.objects[b]? with
    | some dst, some src =>
      let dst1 : Binding :=
        { dst with
          descriptorType := src.descriptorType
          descriptorCount := src.descriptorCount
          stageFlags := src.stageFlags }
      match SAFE_DELETE_ARRAY m.heap dst1.immutableSampler with
      | none => none
      | some (p, h1) =>
        let dst2 : Binding := { dst1 with immutableSampler := p }
        match src.immutableSampler with
        | none => some ⟨m.objects.set this dst2, h1⟩
        | some srcArr =>
          let a := h1.newArray dst2.descriptorCount
          (a.2.memcpy a.1 srcArr dst2.descriptorCount).map fun h3 =>
            ⟨m.objects.set this { dst2 with immutableSampler := some a.1 }, h3⟩
    | _, _ => none

/-- The identifiers of the immutable-sampler array of `b` in heap `h`; `none` when `b` has no
array. -/
def samplers (h : Heap Id) (b : Binding) : Option (List Id) :=
  b.immutableSampler.bind h.read

/-- The state in which the constructors leave a binding: `immutableSampler` is null or points
to a live array of `descriptorCount` identifiers. -/
def Valid (h : Heap Id) (b : Binding) : Prop :=
  ∀ p, b.immutableSampler = some p → ∃ arr, h.read p = some arr ∧ arr.length = b.descriptorCount

end Binding

/-- The operator `bool operator!=(const DescSetLayout &other) const`; `eqOp` is
`operator==`, which the header only declares. -/
def ne (eqOp : DescSetLayout → DescSetLayout → Bool) (this other : DescSetLayout) : Bool :=
  !(eqOp this other)

/-- Modelled from the spec: the comparison of two bindings inside `DescSetLayout::operator==`,
whose body is in a source file other than `vk_info.h`: the type, count, stage flags and
immutable-sampler contents of the two bindings match, the contents being the identifiers of the
array in order, and an absent array matching only an absent array. -/
def Binding.sameAs {Id : Type} [DecidableEq Id] (h : Heap Id) (a b : Binding) : Bool :=
  decide (a.descriptorType = b.descriptorType) &&
  decide (a.descriptorCount = b.descriptorCount) &&
  decide (a.stageFlags = b.stageFlags) &&
  decide (a.immutableSampler.isSome = b.immutableSampler.isSome) &&
  decide (a.samplers h = b.samplers h)

/-- Pairwise comparison of two binding sequences, position by position. -/
def bindingsMatch {Id : Type} [DecidableEq Id] (h : Heap Id) : List Binding → List Binding → Bool
  | [], [] => true
  | a :: as, b :: bs => Binding.sameAs h a b && bindingsMatch h as bs
  | _, _ => false

/-- Modelled from the spec: `bool DescSetLayout::operator==(const DescSetLayout &other) const`,
which `vk_info.h` declares and a source file other than it defines: two layouts are equal when
they have identical binding sequences, every binding's type, count, stage flags and
immutable-sampler contents matching in order. -/
def eq {Id : Type} [DecidableEq Id] (h : Heap Id) (this other : DescSetLayout) : Bool :=
  bindingsMatch h this.bindings other.bindings

/-- Modelled from the spec: one binding-slot record of the sequence built by
`CreateBindingsArray`.  The out-parameter `rdcarray<DescriptorSetSlot *>` holds pointers to
slots of a type declared in another header, and a pointer is modelled by the slot it addresses:
the slot of array element `element` of the binding with index `binding`, together with the
content `slot` of that slot (a `DescriptorSetSlot`). -/
structure BindingSlot (Slot : Type) where
  binding : Nat
  element : Nat
  slot : Slot
  deriving DecidableEq

/-- The strict order of slot records by binding index first and array element second. -/
def BindingSlot.before {Slot : Type} (x y : BindingSlot Slot) : Prop :=
  x.binding < y.binding ∨ (x.binding = y.binding ∧ x.element < y.element)

/-- The slots of one binding: one freshly initialised slot per array element, in element
order. -/
def slotsOfBinding (Slot : Type) [Inhabited Slot] (index : Nat) (b : Binding) :
    List (BindingSlot Slot) :=
  (List.range b.descriptorCount).map fun element => ⟨index, element, default⟩

/-- The slots of a sequence of bindings whose first binding has index `index`: the slots of
each binding, binding after binding. -/
def slotsFrom (Slot : Type) [Inhabited Slot] : Nat → List Binding → List (BindingSlot Slot)
  | _, [] => []
  | index, b :: bs => slotsOfBinding Slot index b ++ slotsFrom Slot (index + 1) bs

/-- Modelled from the spec: `void DescSetLayout::CreateBindingsArray(rdcarray<DescriptorSetSlot *>
&descBindings) const`, which `vk_info.h` declares and a source file other than it defines: it
produces a flat sequence of binding-slot records sized to the total declared descriptor count,
one slot per array element of every binding, in binding-index order.  `Slot` is the record type
`DescriptorSetSlot`, a fresh slot being `default`. -/
def CreateBindingsArray (Slot : Type) [Inhabited Slot] (this : DescSetLayout) :
    List (BindingSlot Slot) :=
  slotsFrom Slot 0 this.bindings

end DescSetLayout

/-! ### `DescUpdateTemplate` -/

/-- Modelled from the spec: the Vulkan structure `VkDescriptorUpdateTemplateEntry`, declared in
the Vulkan headers: one entry per descriptor range, with destination binding and array element,
number of descriptors, descriptor type, and the offset and stride of the range in the data
buffer. -/
structure VkDescriptorUpdateTemplateEntry where
  dstBinding : Nat
  dstArrayElement : Nat
  descriptorCount : Nat
  descriptorType : VkDescriptorType
  offset : Nat
  stride : Nat

/-- The fields of `struct DescUpdateTemplate`; `bindPoint` is the numeric value of the
enumeration `VkPipelineBindPoint`. -/
structure DescUpdateTemplate where
  layout : DescSetLayout
  bindPoint : Nat
  dataByteSize : Nat
  texelBufferViewCount : Nat
  bufferInfoCount : Nat
  imageInfoCount : Nat
  updates : List VkDescriptorUpdateTemplateEntry

namespace DescUpdateTemplate

open VkDescriptorType

variable {BufInfo ImgInfo BufView : Type}

end DescUpdateTemplate

open VkDescriptorType in
/-- A memory with three bindings: object 0 owns the one-element array at address 1, object 1
owns the three-element array at address 0, object 2 has no immutable samplers. -/
def sampleMemory : BindingMemory Nat where
  objects :=
    [⟨VK_DESCRIPTOR_TYPE_SAMPLER, 1, 1, some 1⟩,
     ⟨VK_DESCRIPTOR_TYPE_COMBINED_IMAGE_SAMPLER, 3, 16, some 0⟩,
     ⟨VK_DESCRIPTOR_TYPE_STORAGE_BUFFER, 2, 32, none⟩]
  heap := ⟨[some [7, 8, 9], some [4]]⟩

/-- A layout whose three bindings are those of `sampleMemory`, with descriptor counts 1, 3
and 2. -/
def sampleLayout : DescSetLayout where
  bindings := sampleMemory.objects
  dynamicCount := 0
  flags := 0

/-- A heap holding the same three identifiers at addresses 0 and 2. -/
def sampleHeap : Heap Nat :=
  ⟨[some [7, 8, 9], some [4], some [7, 8, 9]]⟩

end Layout

/-! ## Properties of the map operations -/

section MapLemmas

variable {K V : Type} {lt : K → K → Bool}

theorem StdMap.eq_of_entries_eq (m m' : StdMap K V lt) (h : m.entries = m'.entries) :
    m = m' := by
  cases m
  cases m'
  simp only at h
  subst h
  rfl

theorem findEntries_eraseEntries_self [StrictTotalLt lt] (k : K) (l : List (K × V))
    (h : Ascending lt l) : findEntries lt k (eraseEntries lt k l) = none := by
  induction l with
  | nil => rfl
  | cons e t ih =>
    have hc := List.pairwise_cons.mp h
    cases hq : keyEquiv lt k e.1 with
    | true =>
      simp only [eraseEntries, hq, if_true]
      have hk : k = e.1 := (keyEquiv_iff_eq lt k e.1).mp hq
      apply findEntries_eq_none_of_forall
      intro x hx
      rw [hk]
      exact (keyEquiv_eq_false_of_lt lt (hc.1 x hx)).1
    | false =>
      simp only [eraseEntries, hq, findEntries]
      exact ih hc.2

theorem eraseEntries_of_find_none (k : K) (l : List (K × V))
    (h : findEntries lt k l = none) : eraseEntries lt k l = l := by
  induction l with
  | nil => rfl
  | cons e t ih =>
    cases hq : keyEquiv lt k e.1 with
    | true => simp [findEntries, hq] at h
    | false =>
      simp only [findEntries, hq] at h
      simp only [eraseEntries, hq]
      rw [ih h]
      rfl

theorem findEntries_eraseEntries_ne [StrictTotalLt lt] (k k' : K) (hne : k' ≠ k)
    (l : List (K × V)) : findEntries lt k' (eraseEntries lt k l) = findEntries lt k' l := by
  induction l with
  | nil => rfl
  | cons e t ih =>
    cases hq : keyEquiv lt k e.1 with
    | true =>
      have hk : k = e.1 := (keyEquiv_iff_eq lt k e.1).mp hq
      have hq' : keyEquiv lt k' e.1 = false := by
        cases hq2 : keyEquiv lt k' e.1 with
        | false => rfl
        | true => exact absurd (((keyEquiv_iff_eq lt k' e.1).mp hq2).trans hk.symm) hne
      simp only [eraseEntries, hq, if_true, findEntries, hq']
      rfl
    | false =>
      simp only [eraseEntries, hq, findEntries, ih]

theorem StdMap.find_erase_self [StrictTotalLt lt] (m : StdMap K V lt) (k : K) :
    (m.erase k).find k = none :=
  findEntries_eraseEntries_self k m.entries m.ordered

theorem StdMap.erase_of_find_none (m : StdMap K V lt) (k : K) (h : m.find k = none) :
    m.erase k = m :=
  StdMap.eq_of_entries_eq _ _ (eraseEntries_of_find_none k m.entries h)

theorem StdMap.find_erase_ne [StrictTotalLt lt] (m : StdMap K V lt) (k k' : K) (hne : k' ≠ k) :
    (m.erase k).find k' = m.find k' :=
  findEntries_eraseEntries_ne k k' hne m.entries

theorem StdMap.erase_erase [StrictTotalLt lt] (m : StdMap K V lt) (k : K) :
    (m.erase k).erase k = m.erase k :=
  StdMap.erase_of_find_none _ _ (StdMap.find_erase_self m k)

theorem StdMap.contains_erase_self [StrictTotalLt lt] (m : StdMap K V lt) (k : K) :
    (m.erase k).contains k = false := by
  simp [StdMap.contains, StdMap.find_erase_self]

theorem StdMap.contains_erase_ne [StrictTotalLt lt] (m : StdMap K V lt) (k k' : K)
    (hne : k' ≠ k) : (m.erase k).contains k' = m.contains k' := by
  simp [StdMap.contains, StdMap.find_erase_ne m k k' hne]

theorem findEntries_of_mem [StrictTotalLt lt] (k : K) (v : V) (l : List (K × V))
    (h : Ascending lt l) (hm : (k, v) ∈ l) : findEntries lt k l = some v := by
  induction l with
  | nil => cases hm
  | cons e t ih =>
    have hc := List.pairwise_cons.mp h
    rcases List.mem_cons.mp hm with he | ht
    · have hq : keyEquiv lt k e.1 = true := by
        rw [← he]
        exact (keyEquiv_iff_eq lt k k).mpr rfl
      simp only [findEntries, hq, if_true]
      rw [← he]
    · have hq : keyEquiv lt k e.1 = false := (keyEquiv_eq_false_of_lt lt (hc.1 (k, v) ht)).2
      simp only [findEntries, hq]
      exact ih hc.2 ht

theorem mem_of_findEntries [StrictTotalLt lt] (k : K) (v : V) (l : List (K × V))
    (h : findEntries lt k l = some v) : (k, v) ∈ l := by
  induction l with
  | nil => simp [findEntries] at h
  | cons e t ih =>
    cases hq : keyEquiv lt k e.1 with
    | true =>
      simp only [findEntries, hq, if_true, Option.some.injEq] at h
      have hk : k = e.1 := (keyEquiv_iff_eq lt k e.1).mp hq
      have he : e = (k, v) := by
        rw [hk, ← h]
      rw [he]
      exact List.mem_cons_self _ _
    | false =>
      simp only [findEntries, hq] at h
      exact List.mem_cons_of_mem _ (ih h)

theorem findEntries_insertEntries_self [StrictTotalLt lt] (k : K) (v : V) (l : List (K × V))
    (h : findEntries lt k l = none) : findEntries lt k (insertEntries lt k v l) = some v := by
  have hkk : keyEquiv lt k k = true := (keyEquiv_iff_eq lt k k).mpr rfl
  induction l with
  | nil => simp [insertEntries, findEntries, hkk]
  | cons e t ih =>
    cases hq : keyEquiv lt k e.1 with
    | true => simp [findEntries, hq] at h
    | false =>
      simp only [findEntries, hq] at h
      cases h1 : lt k e.1 with
      | true => simp [insertEntries, h1, findEntries, hkk]
      | false =>
        cases h2 : lt e.1 k with
        | true =>
          simp only [insertEntries, h1, h2, if_true, findEntries, hq]
          exact ih h
        | false => simp [keyEquiv, h1, h2] at hq

theorem findEntries_insertEntries_ne [StrictTotalLt lt] (k k' : K) (hne : k' ≠ k) (v : V)
    (l : List (K × V)) : findEntries lt k' (insertEntries lt k v l) = findEntries lt k' l := by
  have hq' : keyEquiv lt k' k = false := by
    cases hq2 : keyEquiv lt k' k with
    | false => rfl
    | true => exact absurd ((keyEquiv_iff_eq lt k' k).mp hq2) hne
  induction l with
  | nil => simp [insertEntries, findEntries, hq']
  | cons e t ih =>
    cases h1 : lt k e.1 with
    | true => simp [insertEntries, h1, findEntries, hq']
    | false =>
      cases h2 : lt e.1 k with
      | true => simp only [insertEntries, h1, h2, if_true, findEntries, ih]
      | false => simp [insertEntries, h1, h2]

theorem StdMap.find_of_mem [StrictTotalLt lt] (m : StdMap K V lt) (k : K) (v : V)
    (hm : (k, v) ∈ m.entries) : m.find k = some v :=
  findEntries_of_mem k v m.entries m.ordered hm

theorem StdMap.mem_of_find [StrictTotalLt lt] (m : StdMap K V lt) (k : K) (v : V)
    (h : m.find k = some v) : (k, v) ∈ m.entries :=
  mem_of_findEntries k v m.entries h

theorem StdMap.find_eq_none_of_not_mem [StrictTotalLt lt] (m : StdMap K V lt) (k : K)
    (h : ∀ v, (k, v) ∉ m.entries) : m.find k = none := by
  cases hf : m.find k with
  | none => rfl
  | some v => exact absurd (StdMap.mem_of_find m k v hf) (h v)

theorem StdMap.index_of_find_some [StrictTotalLt lt] [Inhabited V] (m : StdMap K V lt) (k : K)
    (v : V) (h : m.find k = some v) : m.index k = (v, m) := by
  simp [StdMap.index, h]

theorem StdMap.index_of_find_none [StrictTotalLt lt] [Inhabited V] (m : StdMap K V lt) (k : K)
    (h : m.find k = none) : m.index k = (default, m.insert k default) := by
  simp [StdMap.index, h]

theorem StdMap.find_insert_self [StrictTotalLt lt] (m : StdMap K V lt) (k : K) (v : V)
    (h : m.find k = none) : (m.insert k v).find k = some v :=
  findEntries_insertEntries_self k v m.entries h

theorem StdMap.find_insert_ne [StrictTotalLt lt] (m : StdMap K V lt) (k k' : K) (v : V)
    (hne : k' ≠ k) : (m.insert k v).find k' = m.find k' :=
  findEntries_insertEntries_ne k k' hne v m.entries

theorem StdMap.find_index_self [StrictTotalLt lt] [Inhabited V] (m : StdMap K V lt) (k : K) :
    (m.index k).2.find k = some (m.index k).1 := by
  cases hf : m.find k with
  | some v => simp [StdMap.index_of_find_some m k v hf, hf]
  | none => simp [StdMap.index_of_find_none m k hf, StdMap.find_insert_self m k default hf]

end MapLemmas

/-! ## Properties of `VulkanCreationInfo::erase` -/

section RegistryTheorems

variable {Id : Type} [LinearOrder Id] {T : DescriptorTypes}

/-- C1: after `erase(id)`, a lookup of `id` finds nothing in any of the eighteen maps of the
registry: the fifteen descriptor-kind maps and the names, swapchain and queue maps. -/
theorem VulkanCreationInfo.erase_then_lookup_finds_nothing (s : VulkanCreationInfo Id T)
    (id : Id) :
    (s.erase id).m_Pipeline.find id = none ∧
    (s.erase id).m_PipelineLayout.find id = none ∧
    (s.erase id).m_RenderPass.find id = none ∧
    (s.erase id).m_Framebuffer.find id = none ∧
    (s.erase id).m_Memory.find id = none ∧
    (s.erase id).m_Buffer.find id = none ∧
    (s.erase id).m_BufferView.find id = none ∧
    (s.erase id).m_Image.find id = none ∧
    (s.erase id).m_Sampler.find id = none ∧
    (s.erase id).m_YCbCrSampler.find id = none ∧
    (s.erase id).m_ImageView.find id = none ∧
    (s.erase id).m_ShaderModule.find id = none ∧
    (s.erase id).m_DescSetPool.find id = none ∧
    (s.erase id).m_DescSetLayout.find id = none ∧
    (s.erase id).m_DescUpdateTemplate.find id = none ∧
    (s.erase id).m_Names.find id = none ∧
    (s.erase id).m_SwapChain.find id = none ∧
    (s.erase id).m_Queue.find id = none := by
  refine ⟨?_, ?_, ?_, ?_, ?_, ?_, ?_, ?_, ?_, ?_, ?_, ?_, ?_, ?_, ?_, ?_, ?_, ?_⟩ <;>
    exact StdMap.find_erase_self _ id

/-- C2: when `id` is a key of none of the eighteen maps, `erase(id)` returns the registry it
was given: every map is unchanged, and there is no failure outcome. -/
theorem VulkanCreationInfo.erase_unknown_is_noop (s : VulkanCreationInfo Id T) (id : Id)
    (h1 : s.m_Pipeline.find id = none) (h2 : s.m_PipelineLayout.find id = none)
    (h3 : s.m_RenderPass.find id = none) (h4 : s.m_Framebuffer.find id = none)
    (h5 : s.m_Memory.find id = none) (h6 : s.m_Buffer.find id = none)
    (h7 : s.m_BufferView.find id = none) (h8 : s.m_Image.find id = none)
    (h9 : s.m_Sampler.find id = none) (h10 : s.m_YCbCrSampler.find id = none)
    (h11 : s.m_ImageView.find id = none) (h12 : s.m_ShaderModule.find id = none)
    (h13 : s.m_DescSetPool.find id = none) (h14 : s.m_Names.find id = none)
    (h15 : s.m_SwapChain.find id = none) (h16 : s.m_DescSetLayout.find id = none)
    (h17 : s.m_DescUpdateTemplate.find id = none) (h18 : s.m_Queue.find id = none) :
    s.erase id = s := by
  cases s
  simp only [VulkanCreationInfo.erase] at *
  simp only [StdMap.erase_of_find_none _ _ h1, StdMap.erase_of_find_none _ _ h2,
    StdMap.erase_of_find_none _ _ h3, StdMap.erase_of_find_none _ _ h4,
    StdMap.erase_of_find_none _ _ h5, StdMap.erase_of_find_none _ _ h6,
    StdMap.erase_of_find_none _ _ h7, StdMap.erase_of_find_none _ _ h8,
    StdMap.erase_of_find_none _ _ h9, StdMap.erase_of_find_none _ _ h10,
    StdMap.erase_of_find_none _ _ h11, StdMap.erase_of_find_none _ _ h12,
    StdMap.erase_of_find_none _ _ h13, StdMap.erase_of_find_none _ _ h14,
    StdMap.erase_of_find_none _ _ h15, StdMap.erase_of_find_none _ _ h16,
    StdMap.erase_of_find_none _ _ h17, StdMap.erase_of_find_none _ _ h18]

/-- C3: `erase` is idempotent: `erase(id)` applied twice gives exactly the state that one
application gives. -/
theorem VulkanCreationInfo.erase_idempotent (s : VulkanCreationInfo Id T) (id : Id) :
    (s.erase id).erase id = s.erase id := by
  simp only [VulkanCreationInfo.erase, StdMap.erase_erase]

theorem VulkanCreationInfo.erase_unknown_is_noop_witness :
    sampleRegistry.m_Buffer.find 5 = some 50 ∧ sampleRegistry.erase 9 = sampleRegistry :=
  ⟨by decide, VulkanCreationInfo.erase_unknown_is_noop sampleRegistry 9 (by decide) (by decide)
    (by decide) (by decide) (by decide) (by decide) (by decide) (by decide) (by decide)
    (by decide) (by decide) (by decide) (by decide) (by decide) (by decide) (by decide)
    (by decide) (by decide)⟩

theorem VulkanCreationInfo.kindCount_erase_le (s : VulkanCreationInfo Id T) (id x : Id) :
    (s.erase id).kindCount x ≤ s.kindCount x := by
  by_cases hx : x = id
  · subst hx
    simp [VulkanCreationInfo.kindCount, VulkanCreationInfo.kindMembership,
      VulkanCreationInfo.erase, StdMap.contains_erase_self]
  · simp only [VulkanCreationInfo.kindCount, VulkanCreationInfo.kindMembership,
      VulkanCreationInfo.erase, StdMap.contains_erase_ne _ _ _ hx]
    exact le_refl _

/-- C10: `erase` preserves the registry invariant: if every identifier is a key of at most one
of the fifteen descriptor-kind maps, the same holds after `erase(id)`. -/
theorem VulkanCreationInfo.erase_preserves_atMostOneKind (s : VulkanCreationInfo Id T) (id : Id)
    (h : s.AtMostOneKind) : (s.erase id).AtMostOneKind :=
  fun x => le_trans (VulkanCreationInfo.kindCount_erase_le s id x) (h x)

theorem keyEquiv_idLt (a b : Id) : keyEquiv idLt a b = decide (a = b) := by
  by_cases h : a = b
  · simp [h, (keyEquiv_iff_eq idLt b b).mpr rfl]
  · simp only [h, decide_False]
    cases hq : keyEquiv idLt a b with
    | false => rfl
    | true => exact absurd ((keyEquiv_iff_eq idLt a b).mp hq) h

theorem sampleRegistry_atMostOneKind : sampleRegistry.AtMostOneKind := by
  intro x
  simp only [VulkanCreationInfo.kindCount, VulkanCreationInfo.kindMembership, sampleRegistry,
    VulkanCreationInfo.empty, StdMap.contains, StdMap.find, StdMap.empty, findEntries,
    keyEquiv_idLt]
  by_cases h1 : x = 1
  · subst h1
    decide
  · by_cases h2 : x = 2
    · subst h2
      decide
    · by_cases h3 : x = 3
      · subst h3
        decide
      · by_cases h5 : x = 5
        · subst h5
          decide
        · simp [h1, h2, h3, h5]

theorem VulkanCreationInfo.erase_preserves_atMostOneKind_witness :
    sampleRegistry.AtMostOneKind ∧ (sampleRegistry.erase 2).AtMostOneKind :=
  ⟨sampleRegistry_atMostOneKind,
    VulkanCreationInfo.erase_preserves_atMostOneKind sampleRegistry 2
      sampleRegistry_atMostOneKind⟩

end RegistryTheorems

/-! ## Properties of `ShaderModule::GetReflection` -/

section ReflectionTheorems

variable {S Id R Spv : Type} [LinearOrder S] [LinearOrder Id] [Inhabited Id] [Inhabited R]

theorem ShaderModule.GetReflection_of_find_some (m : ShaderModule S Id R Spv) (e : S) (p : Id)
    (r : R) (h : m.m_Reflections.find ⟨e, p⟩ = some r) : m.GetReflection e p = (r, m) := by
  simp [ShaderModule.GetReflection, h]

theorem ShaderModule.GetReflection_of_find_none (m : ShaderModule S Id R Spv) (e : S) (p : Id)
    (h : m.m_Reflections.find ⟨e, p⟩ = none) :
    m.GetReflection e p =
      ((m.m_Reflections.index ⟨e, default⟩).1,
       { m with m_Reflections := (m.m_Reflections.index ⟨e, default⟩).2 }) := by
  simp [ShaderModule.GetReflection, h]

/-- C4: when the cache holds an entry `r` under the key `(e, p)`, `GetReflection(e, p)` returns
`r` (whether or not an entry under `(e, null id)` exists too); when it holds none under `(e, p)`
but holds `r` under `(e, null id)`, it returns that `r`.  In both cases the module is left as it
was. -/
theorem ShaderModule.GetReflection_returns_stored_entry (m : ShaderModule S Id R Spv) (e : S)
    (p : Id) :
    (∀ r, ((⟨e, p⟩ : ShaderModuleReflectionKey S Id), r) ∈ m.m_Reflections.entries →
      m.GetReflection e p = (r, m)) ∧
    ((∀ r, ((⟨e, p⟩ : ShaderModuleReflectionKey S Id), r) ∉ m.m_Reflections.entries) →
      ∀ r, ((⟨e, default⟩ : ShaderModuleReflectionKey S Id), r) ∈ m.m_Reflections.entries →
        m.GetReflection e p = (r, m)) := by
  constructor
  · intro r hr
    exact ShaderModule.GetReflection_of_find_some m e p r (StdMap.find_of_mem _ _ _ hr)
  · intro hnone r hr
    have h1 : m.m_Reflections.find ⟨e, p⟩ = none := StdMap.find_eq_none_of_not_mem _ _ hnone
    have h2 : m.m_Reflections.find ⟨e, default⟩ = some r := StdMap.find_of_mem _ _ _ hr
    rw [ShaderModule.GetReflection_of_find_none m e p h1,
      StdMap.index_of_find_some _ _ r h2]

theorem ShaderModule.GetReflection_returns_stored_entry_witness :
    sampleModule.GetReflection mainName 7 = (107, sampleModule) ∧
    sampleModule.GetReflection mainName 9 = (100, sampleModule) :=
  ⟨(ShaderModule.GetReflection_returns_stored_entry sampleModule mainName 7).1 107
      (by simp [sampleModule]),
    (ShaderModule.GetReflection_returns_stored_entry sampleModule mainName 9).2
      (by intro r; simp [sampleModule]) 100 (by simp [sampleModule])⟩

/-- C5: `GetReflection` never fails.  It is a total function with no error outcome: for every
cache, entry point and pipeline it returns a reflection `r` together with the module after the
call, and `r` is an entry of that module's cache, stored under `(entry, pipe)` or under
`(entry, null id)`.  When the cache holds neither key (in particular when it is empty) the
returned reflection is the default-constructed one. -/
theorem ShaderModule.GetReflection_never_fails (m : ShaderModule S Id R Spv) (e : S) (p : Id) :
    (∃ r m', m.GetReflection e p = (r, m') ∧
      (((⟨e, p⟩ : ShaderModuleReflectionKey S Id), r) ∈ m'.m_Reflections.entries ∨
       ((⟨e, default⟩ : ShaderModuleReflectionKey S Id), r) ∈ m'.m_Reflections.entries)) ∧
    (m.m_Reflections.find ⟨e, p⟩ = none → m.m_Reflections.find ⟨e, default⟩ = none →
      (m.GetReflection e p).1 = default) ∧
    (∀ (spirv : Spv) (path : S),
      ((⟨spirv, path, StdMap.empty⟩ : ShaderModule S Id R Spv).GetReflection e p).1 = default) := by
  refine ⟨?_, ?_, ?_⟩
  · cases hf : m.m_Reflections.find ⟨e, p⟩ with
    | some r =>
      exact ⟨r, m, ShaderModule.GetReflection_of_find_some m e p r hf,
        Or.inl (StdMap.mem_of_find _ _ _ hf)⟩
    | none =>
      refine ⟨_, _, ShaderModule.GetReflection_of_find_none m e p hf, Or.inr ?_⟩
      exact StdMap.mem_of_find _ _ _ (StdMap.find_index_self _ _)
  · intro h1 h2
    rw [ShaderModule.GetReflection_of_find_none m e p h1, StdMap.index_of_find_none _ _ h2]
  · intro spirv path
    rfl

theorem ShaderModule.GetReflection_never_fails_witness :
    (emptyModule.GetReflection mainName 7).1 = 0 ∧
    (sampleModule.GetReflection [118, 115] 7).1 = 0 :=
  ⟨(ShaderModule.GetReflection_never_fails emptyModule mainName 7).2.1 rfl rfl,
    (ShaderModule.GetReflection_never_fails sampleModule [118, 115] 7).2.1 (by decide)
      (by decide)⟩

end ReflectionTheorems

/-! ## Properties of the heap operations -/

section HeapLemmas

variable {Id : Type}

theorem allocIn_get_new (arr : List Id) (l : List (Option (List Id))) :
    (allocIn arr l).2[(allocIn arr l).1]?.join = some arr := by
  induction l with
  | nil => simp [allocIn]
  | cons b t ih =>
    cases b with
    | none => simp [allocIn]
    | some b => simpa [allocIn] using ih

theorem allocIn_get_old (arr : List Id) (l : List (Option (List Id))) :
    l[(allocIn arr l).1]?.join = none := by
  induction l with
  | nil => simp [allocIn]
  | cons b t ih =>
    cases b with
    | none => simp [allocIn]
    | some b => simpa [allocIn] using ih

theorem allocIn_get_other (arr : List Id) (l : List (Option (List Id))) (a : Nat)
    (ha : a ≠ (allocIn arr l).1) :
    (allocIn arr l).2[a]?.join = l[a]?.join := by
  induction l generalizing a with
  | nil =>
    cases a with
    | zero => exact absurd rfl ha
    | succ a => simp [allocIn]
  | cons b t ih =>
    cases b with
    | none =>
      cases a with
      | zero => exact absurd rfl ha
      | succ a => simp [allocIn]
    | some b =>
      cases a with
      | zero => simp [allocIn]
      | succ a =>
        have ha' : a ≠ (allocIn arr t).1 := fun h => ha (by simp [allocIn, h])
        simpa [allocIn] using ih a ha'

theorem set_get_same (l : List (Option (List Id))) (a : Nat) (v : Option (List Id))
    (x : List Id) (h : l[a]?.join = some x) : (l.set a v)[a]?.join = v := by
  induction l generalizing a with
  | nil => simp at h
  | cons b t ih =>
    cases a with
    | zero => simp
    | succ a => simpa using ih a (by simpa using h)

theorem set_get_other (l : List (Option (List Id))) (a a' : Nat) (v : Option (List Id))
    (h : a' ≠ a) : (l.set a v)[a']?.join = l[a']?.join := by
  induction l generalizing a a' with
  | nil => simp
  | cons b t ih =>
    cases a with
    | zero =>
      cases a' with
      | zero => exact absurd rfl h
      | succ a' => simp
    | succ a =>
      cases a' with
      | zero => simp
      | succ a' => simpa using ih a a' (fun h' => h (by rw [h']))

theorem Heap.read_write_same (h : Heap Id) (a : Nat) (v : Option (List Id)) (x : List Id)
    (hx : h.read a = some x) : (h.write a v).read a = v :=
  set_get_same h.blocks a v x hx

theorem Heap.read_write_other (h : Heap Id) (a a' : Nat) (v : Option (List Id))
    (hne : a' ≠ a) : (h.write a v).read a' = h.read a' :=
  set_get_other h.blocks a a' v hne

theorem Heap.read_newArray_new [Inhabited Id] (h : Heap Id) (n : Nat) :
    (h.newArray n).2.read (h.newArray n).1 = some (List.replicate n default) :=
  allocIn_get_new _ h.blocks

theorem Heap.read_newArray_free [Inhabited Id] (h : Heap Id) (n : Nat) :
    h.read (h.newArray n).1 = none :=
  allocIn_get_old _ h.blocks

theorem Heap.read_newArray_other [Inhabited Id] (h : Heap Id) (n a : Nat)
    (ha : a ≠ (h.newArray n).1) : (h.newArray n).2.read a = h.read a :=
  allocIn_get_other _ h.blocks a ha

/-- Allocating `n` identifiers and copying a live block of `n` identifiers into them succeeds;
the new block was free before, holds the copied identifiers afterwards, and every other address
reads as before. -/
theorem Heap.newArray_memcpy [Inhabited Id] (h : Heap Id) (p n : Nat) (arr : List Id)
    (hr : h.read p = some arr) (hlen : arr.length = n) :
    ∃ h', (h.newArray n).2.memcpy (h.newArray n).1 p n = some h' ∧
      h.read (h.newArray n).1 = none ∧
      h'.read (h.newArray n).1 = some arr ∧
      ∀ a, a ≠ (h.newArray n).1 → h'.read a = h.read a := by
  have hfree := Heap.read_newArray_free h n
  have hnew := Heap.read_newArray_new h n
  have hne : p ≠ (h.newArray n).1 := by
    intro hp
    rw [← hp, hr] at hfree
    cases hfree
  have hsrc : (h.newArray n).2.read p = some arr := by
    rw [Heap.read_newArray_other h n p hne, hr]
  have hdata : List.take n arr ++ List.drop n (List.replicate n (default : Id)) = arr := by
    subst hlen
    simp
  refine ⟨(h.newArray n).2.write (h.newArray n).1 (some arr), ?_, hfree, ?_, ?_⟩
  · simp only [Heap.memcpy, hnew, hsrc]
    rw [if_pos ⟨by simp, by simp [hlen], Or.inl (Ne.symm hne)⟩, hdata]
  · exact Heap.read_write_same _ _ _ _ hnew
  · intro a ha
    rw [Heap.read_write_other _ _ _ _ ha, Heap.read_newArray_other h n a ha]

end HeapLemmas

/-! ## Properties of `DescSetLayout::Binding` and `DescSetLayout` -/

section LayoutTheorems

open DescSetLayout

variable {Id : Type}

theorem list_set_get_same {α : Type} (l : List α) (a : Nat) (v x : α)
    (h : l[a]? = some x) : (l.set a v)[a]? = some v := by
  induction l generalizing a with
  | nil => simp at h
  | cons b t ih =>
    cases a with
    | zero => simp
    | succ a => simpa using ih a (by simpa using h)

theorem list_set_get_other {α : Type} (l : List α) (a a' : Nat) (v : α) (h : a' ≠ a) :
    (l.set a v)[a']? = l[a']? := by
  induction l generalizing a a' with
  | nil => simp
  | cons b t ih =>
    cases a with
    | zero =>
      cases a' with
      | zero => exact absurd rfl h
      | succ a' => simp
    | succ a =>
      cases a' with
      | zero => simp
      | succ a' => simpa using ih a a' (fun h' => h (by rw [h']))

theorem DescSetLayout.Binding.copy_of_null [Inhabited Id] (h : Heap Id) (b : Binding)
    (hp : b.immutableSampler = none) :
    Binding.copy h b = some (⟨b.descriptorType, b.descriptorCount, b.stageFlags, none⟩, h) := by
  simp [Binding.copy, hp]

theorem DescSetLayout.Binding.copy_of_array [Inhabited Id] (h : Heap Id) (b : Binding) (p : Nat)
    (arr : List Id) (hp : b.immutableSampler = some p) (hr : h.read p = some arr)
    (hlen : arr.length = b.descriptorCount) :
    ∃ q h', Binding.copy h b =
        some (⟨b.descriptorType, b.descriptorCount, b.stageFlags, some q⟩, h') ∧
      h.read q = none ∧ h'.read q = some arr ∧ ∀ a, a ≠ q → h'.read a = h.read a := by
  obtain ⟨h', hcpy, hfree, hnew, hother⟩ := Heap.newArray_memcpy h p b.descriptorCount arr hr hlen
  refine ⟨(h.newArray b.descriptorCount).1, h', ?_, hfree, hnew, hother⟩
  simp [Binding.copy, hp, hcpy]

theorem DescSetLayout.SAFE_DELETE_ARRAY_spec (h : Heap Id) (ptr : Option Nat)
    (hlive : ∀ p, ptr = some p → ∃ arr, h.read p = some arr) :
    ∃ h1, SAFE_DELETE_ARRAY h ptr = some (none, h1) ∧
      (∀ p, ptr = some p → h1.read p = none) ∧
      (∀ p, ptr ≠ some p → h1.read p = h.read p) := by
  cases ptr with
  | none =>
    refine ⟨h, by simp [SAFE_DELETE_ARRAY, Heap.deleteArray], ?_, ?_⟩
    · intro p hp
      cases hp
    · intro p _
      rfl
  | some a =>
    obtain ⟨arr, harr⟩ := hlive a rfl
    refine ⟨h.write a none, by simp [SAFE_DELETE_ARRAY, Heap.deleteArray, harr], ?_, ?_⟩
    · intro p hp
      cases hp
      exact Heap.read_write_same h a none arr harr
    · intro p hp
      exact Heap.read_write_other h a p none (fun hpa => hp (by rw [hpa]))

theorem DescSetLayout.Binding.assign_of_null [Inhabited Id] (m : BindingMemory Id) (i j : Nat)
    (a b : Binding) (hij : i ≠ j) (hi : m.objects[i]? = some a)
    (hj : m.objects[j]? = some b)
    (ha : ∀ p, a.immutableSampler = some p → ∃ arr, m.heap.read p = some arr)
    (hb : b.immutableSampler = none) :
    ∃ h1, Binding.assign m i j =
        some ⟨m.objects.set i ⟨b.descriptorType, b.descriptorCount, b.stageFlags, none⟩, h1⟩ ∧
      (∀ p, a.immutableSampler = some p → h1.read p = none) ∧
      (∀ p, a.immutableSampler ≠ some p → h1.read p = m.heap.read p) := by
  obtain ⟨h1, hdel, hfreed, hkept⟩ := SAFE_DELETE_ARRAY_spec m.heap a.immutableSampler ha
  refine ⟨h1, ?_, hfreed, hkept⟩
  simp [Binding.assign, hij, hi, hj, hdel, hb]

theorem DescSetLayout.Binding.assign_of_array [Inhabited Id] (m : BindingMemory Id) (i j : Nat)
    (a b : Binding) (pb : Nat) (arr : List Id) (hij : i ≠ j)
    (hi : m.objects[i]? = some a) (hj : m.objects[j]? = some b)
    (ha : ∀ p, a.immutableSampler = some p → ∃ arr, m.heap.read p = some arr)
    (hb : b.immutableSampler = some pb) (hr : m.heap.read pb = some arr)
    (hlen : arr.length = b.descriptorCount) (hsep : a.immutableSampler ≠ some pb) :
    ∃ q h', Binding.assign m i j =
        some ⟨m.objects.set i ⟨b.descriptorType, b.descriptorCount, b.stageFlags, some q⟩, h'⟩ ∧
      q ≠ pb ∧ h'.read q = some arr ∧ h'.read pb = some arr ∧
      (∀ p, a.immutableSampler = some p → p ≠ q → h'.read p = none) ∧
      (∀ p, a.immutableSampler ≠ some p → p ≠ q → h'.read p = m.heap.read p) := by
  obtain ⟨h1, hdel, hfreed, hkept⟩ := SAFE_DELETE_ARRAY_spec m.heap a.immutableSampler ha
  have hr1 : h1.read pb = some arr := by
    rw [hkept pb hsep, hr]
  obtain ⟨h', hcpy, hfree, hnew, hother⟩ :=
    Heap.newArray_memcpy h1 pb b.descriptorCount arr hr1 hlen
  have hne : (h1.newArray b.descriptorCount).1 ≠ pb := by
    intro hq
    rw [hq, hr1] at hfree
    cases hfree
  refine ⟨(h1.newArray b.descriptorCount).1, h', ?_, hne, hnew, ?_, ?_, ?_⟩
  · simp [Binding.assign, hij, hi, hj, hdel, hb, hcpy]
  · rw [hother pb (Ne.symm hne), hr1]
  · intro p hp hpq
    rw [hother p hpq, hfreed p hp]
  · intro p hp hpq
    rw [hother p hpq, hkept p hp]

/-- C6: copy-constructing a binding `b` (whose `immutableSampler` is null or points to a live
array of `descriptorCount` identifiers) succeeds and yields a binding with the same
`descriptorType`, `descriptorCount` and `stageFlags`.  If `b` has no array the copy has none and
the heap is untouched.  If `b` has one, the copy points to a different, newly allocated array of
exactly `descriptorCount` identifiers, equal to those of `b` in the same order; the array of `b`
is unchanged, and storing into any element of the copy's array changes that element only and
leaves the array of `b` as it was. -/
theorem DescSetLayout.Binding.copy_constructor_is_deep [Inhabited Id] (h : Heap Id)
    (b : Binding) (hb : b.Valid h) :
    ∃ c h', Binding.copy h b = some (c, h') ∧
      c.descriptorType = b.descriptorType ∧
      c.descriptorCount = b.descriptorCount ∧
      c.stageFlags = b.stageFlags ∧
      (b.immutableSampler = none → c.immutableSampler = none ∧ h' = h) ∧
      (∀ p arr, b.immutableSampler = some p → h.read p = some arr →
        ∃ q, c.immutableSampler = some q ∧ q ≠ p ∧ h.read q = none ∧
          h'.read q = some arr ∧ arr.length = c.descriptorCount ∧ h'.read p = some arr ∧
          ∀ i x, i < arr.length →
            ∃ h'', h'.store q i x = some h'' ∧
              h''.read q = some (arr.set i x) ∧ h''.read p = some arr) := by
  cases hp : b.immutableSampler with
  | none =>
    refine ⟨_, _, Binding.copy_of_null h b hp, rfl, rfl, rfl, fun _ => ⟨rfl, rfl⟩, ?_⟩
    intro p arr hp'
    cases hp'
  | some p0 =>
    obtain ⟨arr0, hr0, hlen0⟩ := hb p0 hp
    obtain ⟨q, h', hcopy, hfree, hnew, hother⟩ := Binding.copy_of_array h b p0 arr0 hp hr0 hlen0
    refine ⟨_, _, hcopy, rfl, rfl, rfl, ?_, ?_⟩
    · intro hnone
      cases hnone
    · intro p arr hp' hr
      have hpp : p = p0 := (Option.some.inj hp').symm
      subst hpp
      have harr : arr0 = arr := by
        rw [hr0] at hr
        exact Option.some.inj hr
      subst harr
      have hqp : q ≠ p := by
        intro hq
        rw [hq, hr0] at hfree
        cases hfree
      have hp' : h'.read p = some arr0 := by
        rw [hother p (Ne.symm hqp), hr0]
      refine ⟨q, rfl, hqp, hfree, hnew, hlen0, hp', ?_⟩
      intro i x hi
      refine ⟨h'.write q (some (arr0.set i x)), ?_, ?_, ?_⟩
      · simp [Heap.store, hnew, hi]
      · exact Heap.read_write_same h' q _ arr0 hnew
      · rw [Heap.read_write_other h' q p _ (Ne.symm hqp), hp']

theorem sampleMemory_binding_valid :
    Binding.Valid sampleMemory.heap
      ⟨VkDescriptorType.VK_DESCRIPTOR_TYPE_COMBINED_IMAGE_SAMPLER, 3, 16, some 0⟩ := by
  intro p hp
  cases hp
  exact ⟨[7, 8, 9], rfl, rfl⟩

theorem DescSetLayout.Binding.copy_constructor_is_deep_witness :
    ∃ c h', Binding.copy sampleMemory.heap
        ⟨VkDescriptorType.VK_DESCRIPTOR_TYPE_COMBINED_IMAGE_SAMPLER, 3, 16, some 0⟩ =
          some (c, h') ∧
      c.descriptorCount = 3 ∧ c.immutableSampler ≠ some 0 ∧
      Binding.samplers h' c = some [7, 8, 9] ∧ h'.read 0 = some [7, 8, 9] := by
  obtain ⟨c, h', hcopy, _, hcount, _, _, harr⟩ :=
    DescSetLayout.Binding.copy_constructor_is_deep sampleMemory.heap
      ⟨VkDescriptorType.VK_DESCRIPTOR_TYPE_COMBINED_IMAGE_SAMPLER, 3, 16, some 0⟩
      sampleMemory_binding_valid
  obtain ⟨q, hq, hq0, _, hnew, _, hold, _⟩ := harr 0 [7, 8, 9] rfl rfl
  refine ⟨c, h', hcopy, hcount, ?_, ?_, hold⟩
  · rw [hq]
    intro h0
    exact hq0 (Option.some.inj h0)
  · simp [Binding.samplers, hq, hnew]

theorem DescSetLayout.Binding.assign_self [Inhabited Id] (m : BindingMemory Id) (i : Nat) :
    Binding.assign m i i = some m := by
  simp [Binding.assign]

/-- C7: the assignment `a = b` between two distinct binding objects (the pointer of `a` null
or live, that of `b` null or pointing to a live array of `b.descriptorCount` identifiers, not
shared with `a`) succeeds and leaves `a` equal, field by field and sampler by sampler, to a
copy-constructed copy of `b`, whatever `a` held before, and leaves `b` as it was.  The previous
array of `a` is released: when `b` has no array `a` has none afterwards, and when `b` has one
`a` points to an array of its own holding exactly `b.descriptorCount` identifiers equal to those
of `b`.  Self-assignment returns at once and changes nothing. -/
theorem DescSetLayout.Binding.assignment_equals_copy [Inhabited Id] (m : BindingMemory Id)
    (i j : Nat) (a b : Binding) (hij : i ≠ j) (hi : m.objects[i]? = some a)
    (hj : m.objects[j]? = some b)
    (ha : ∀ p, a.immutableSampler = some p → ∃ arr, m.heap.read p = some arr)
    (hb : b.Valid m.heap)
    (hsep : ∀ p, a.immutableSampler = some p → b.immutableSampler ≠ some p) :
    Binding.assign m i i = some m ∧
    ∃ m' a' c hc, Binding.assign m i j = some m' ∧ Binding.copy m.heap b = some (c, hc) ∧
      m'.objects[i]? = some a' ∧ m'.objects[j]? = some b ∧
      a'.descriptorType = c.descriptorType ∧
      a'.descriptorCount = c.descriptorCount ∧
      a'.stageFlags = c.stageFlags ∧
      a'.immutableSampler.isSome = c.immutableSampler.isSome ∧
      a'.samplers m'.heap = c.samplers hc ∧
      a'.descriptorType = b.descriptorType ∧
      a'.descriptorCount = b.descriptorCount ∧
      a'.stageFlags = b.stageFlags ∧
      b.samplers m'.heap = b.samplers m.heap ∧
      (b.immutableSampler = none → a'.immutableSampler = none) ∧
      (∀ p, b.immutableSampler = some p →
        ∃ q arr, a'.immutableSampler = some q ∧ q ≠ p ∧ m'.heap.read q = some arr ∧
          arr.length = b.descriptorCount ∧ m.heap.read p = some arr ∧
          m'.heap.read p = some arr) ∧
      (∀ p, a.immutableSampler = some p → a'.immutableSampler ≠ some p →
        m'.heap.read p = none) := by
  refine ⟨by simp [Binding.assign], ?_⟩
  have hi' : ∀ x : Binding, (m.objects.set i x)[i]? = some x :=
    fun x => list_set_get_same m.objects i x a hi
  have hj' : ∀ x : Binding, (m.objects.set i x)[j]? = some b := by
    intro x
    rw [list_set_get_other m.objects i j x (Ne.symm hij), hj]
  cases hp : b.immutableSampler with
  | none =>
    obtain ⟨h1, hassign, hfreed, hkept⟩ := Binding.assign_of_null m i j a b hij hi hj ha hp
    refine ⟨_, _, _, _, hassign, Binding.copy_of_null m.heap b hp, hi' _, hj' _, rfl, rfl, rfl,
      rfl, ?_, rfl, rfl, rfl, ?_, fun _ => rfl, ?_, ?_⟩
    · simp [Binding.samplers]
    · simp [Binding.samplers, hp]
    · intro p hp'
      cases hp'
    · intro p hpa _
      exact hfreed p hpa
  | some pb =>
    obtain ⟨arr, hr, hlen⟩ := hb pb hp
    have hsep' : a.immutableSampler ≠ some pb := fun h => hsep pb h hp
    obtain ⟨q, h', hassign, hq, hnew, hold, hfreed, _⟩ :=
      Binding.assign_of_array m i j a b pb arr hij hi hj ha hp hr hlen hsep'
    obtain ⟨qc, hc, hcopy, _, hcnew, _⟩ := Binding.copy_of_array m.heap b pb arr hp hr hlen
    refine ⟨_, _, _, _, hassign, hcopy, hi' _, hj' _, rfl, rfl, rfl, rfl, ?_, rfl, rfl, rfl,
      ?_, ?_, ?_, ?_⟩
    · simp [Binding.samplers, hnew, hcnew]
    · simp [Binding.samplers, hp, hold, hr]
    · intro hnone
      cases hnone
    · intro p hp'
      have hpp : p = pb := (Option.some.inj hp').symm
      subst hpp
      exact ⟨q, arr, rfl, hq, hnew, hlen, hr, hold⟩
    · intro p hpa hne
      exact hfreed p hpa (fun hpq => hne (by rw [hpq]))

theorem sampleMemory_assign_hypotheses :
    (∀ p, (⟨VkDescriptorType.VK_DESCRIPTOR_TYPE_SAMPLER, 1, 1, some 1⟩ :
        Binding).immutableSampler = some p → ∃ arr, sampleMemory.heap.read p = some arr) ∧
    (∀ p, (⟨VkDescriptorType.VK_DESCRIPTOR_TYPE_SAMPLER, 1, 1, some 1⟩ :
        Binding).immutableSampler = some p →
      (⟨VkDescriptorType.VK_DESCRIPTOR_TYPE_COMBINED_IMAGE_SAMPLER, 3, 16, some 0⟩ :
        Binding).immutableSampler ≠ some p) := by
  constructor
  · intro p hp
    have hpp : p = 1 := (Option.some.inj hp).symm
    subst hpp
    exact ⟨[4], rfl⟩
  · intro p hp
    have hpp : p = 1 := (Option.some.inj hp).symm
    subst hpp
    decide

theorem DescSetLayout.Binding.assignment_equals_copy_witness :
    Binding.assign sampleMemory 0 0 = some sampleMemory ∧
    ∃ m' a', Binding.assign sampleMemory 0 1 = some m' ∧ m'.objects[0]? = some a' ∧
      a'.descriptorCount = 3 ∧ Binding.samplers m'.heap a' = some [7, 8, 9] ∧
      m'.objects[1]? = sampleMemory.objects[1]? := by
  obtain ⟨hself, m', a', _, _, hassign, _, h0, h1, _, _, _, _, _, _, hcount, _, _, _, harr, _⟩ :=
    DescSetLayout.Binding.assignment_equals_copy sampleMemory 0 1
      ⟨VkDescriptorType.VK_DESCRIPTOR_TYPE_SAMPLER, 1, 1, some 1⟩
      ⟨VkDescriptorType.VK_DESCRIPTOR_TYPE_COMBINED_IMAGE_SAMPLER, 3, 16, some 0⟩
      (by decide) rfl rfl sampleMemory_assign_hypotheses.1 sampleMemory_binding_valid
      sampleMemory_assign_hypotheses.2
  obtain ⟨q, arr, hq, _, hnew, _, hold, _⟩ := harr 0 rfl
  have harr' : arr = [7, 8, 9] := by
    have h2 : sampleMemory.heap.read 0 = some [7, 8, 9] := rfl
    rw [h2] at hold
    exact (Option.some.inj hold).symm
  subst harr'
  refine ⟨hself, m', a', hassign, h0, hcount, ?_, ?_⟩
  · simp [Binding.samplers, hq, hnew]
  · rw [h1]
    rfl

/-- C8: a default-constructed binding has `stageFlags` 0, `descriptorType`
`VK_DESCRIPTOR_TYPE_UNIFORM_BUFFER`, `descriptorCount` 1 and a null `immutableSampler`. -/
theorem DescSetLayout.Binding.default_constructed :
    Binding.init.stageFlags = 0 ∧
    Binding.init.descriptorType = VkDescriptorType.VK_DESCRIPTOR_TYPE_UNIFORM_BUFFER ∧
    Binding.init.descriptorCount = 1 ∧
    Binding.init.immutableSampler = none :=
  ⟨rfl, rfl, rfl, rfl⟩

/-- C9: `A != B` is the negation of `A == B`, whatever `operator==` returns: `A != B` is true
exactly when `A == B` is false, and false exactly when `A == B` is true. -/
theorem DescSetLayout.ne_is_negation_of_eq (eqOp : DescSetLayout → DescSetLayout → Bool)
    (A B : DescSetLayout) :
    DescSetLayout.ne eqOp A B = !(eqOp A B) ∧
    (DescSetLayout.ne eqOp A B = true ↔ eqOp A B = false) ∧
    (DescSetLayout.ne eqOp A B = false ↔ eqOp A B = true) := by
  cases h : eqOp A B <;> simp [DescSetLayout.ne, h]

end LayoutTheorems

/-! ## Frame of `VulkanCreationInfo::erase` -/

section EraseFrame

variable {Id : Type} [LinearOrder Id] {T : DescriptorTypes}

/-- C14: `erase(id)` touches only `id`: for every other identifier `id'`, each of the eighteen
maps of the registry gives, after `erase(id)`, the same lookup result for `id'` (the same entry,
or the same absence of an entry) as before. -/
theorem VulkanCreationInfo.erase_touches_only_id (s : VulkanCreationInfo Id T) (id id' : Id)
    (hne : id' ≠ id) :
    (s.erase id).m_Pipeline.find id' = s.m_Pipeline.find id' ∧
    (s.erase id).m_PipelineLayout.find id' = s.m_PipelineLayout.find id' ∧
    (s.erase id).m_RenderPass.find id' = s.m_RenderPass.find id' ∧
    (s.erase id).m_Framebuffer.find id' = s.m_Framebuffer.find id' ∧
    (s.erase id).m_Memory.find id' = s.m_Memory.find id' ∧
    (s.erase id).m_Buffer.find id' = s.m_Buffer.find id' ∧
    (s.erase id).m_BufferView.find id' = s.m_BufferView.find id' ∧
    (s.erase id).m_Image.find id' = s.m_Image.find id' ∧
    (s.erase id).m_Sampler.find id' = s.m_Sampler.find id' ∧
    (s.erase id).m_YCbCrSampler.find id' = s.m_YCbCrSampler.find id' ∧
    (s.erase id).m_ImageView.find id' = s.m_ImageView.find id' ∧
    (s.erase id).m_ShaderModule.find id' = s.m_ShaderModule.find id' ∧
    (s.erase id).m_DescSetPool.find id' = s.m_DescSetPool.find id' ∧
    (s.erase id).m_Names.find id' = s.m_Names.find id' ∧
    (s.erase id).m_SwapChain.find id' = s.m_SwapChain.find id' ∧
    (s.erase id).m_DescSetLayout.find id' = s.m_DescSetLayout.find id' ∧
    (s.erase id).m_DescUpdateTemplate.find id' = s.m_DescUpdateTemplate.find id' ∧
    (s.erase id).m_Queue.find id' = s.m_Queue.find id' := by
  refine ⟨?_, ?_, ?_, ?_, ?_, ?_, ?_, ?_, ?_, ?_, ?_, ?_, ?_, ?_, ?_, ?_, ?_, ?_⟩ <;>
    exact StdMap.find_erase_ne _ id id' hne

theorem VulkanCreationInfo.erase_touches_only_id_witness :
    (5 : Nat) ≠ 2 ∧ sampleRegistry.m_Buffer.find 5 = some 50 ∧
    (sampleRegistry.erase 2).m_Buffer.find 5 = sampleRegistry.m_Buffer.find 5 ∧
    (sampleRegistry.erase 2).m_Names.find 5 = sampleRegistry.m_Names.find 5 :=
  ⟨by decide, by decide,
    (VulkanCreationInfo.erase_touches_only_id sampleRegistry 2 5 (by decide)).2.2.2.2.2.1,
    (VulkanCreationInfo.erase_touches_only_id sampleRegistry 2 5
      (by decide)).2.2.2.2.2.2.2.2.2.2.2.2.2.1⟩

end EraseFrame

/-! ## The order `ShaderModuleReflectionKey::operator<` -/

section KeyOrder

variable {S Id : Type} [LinearOrder S] [LinearOrder Id]

theorem keyLt_trichotomy (a b : ShaderModuleReflectionKey S Id) :
    a.lt b = true ∨ a = b ∨ b.lt a = true := by
  cases hab : a.lt b with
  | true => exact Or.inl rfl
  | false =>
    cases hba : b.lt a with
    | true => exact Or.inr (Or.inr rfl)
    | false => exact Or.inr (Or.inl (keyLt_total a b hab hba))

theorem keyLt_unordered_iff (a b : ShaderModuleReflectionKey S Id) :
    (a.lt b = false ∧ b.lt a = false) ↔
      (a.entryPoint = b.entryPoint ∧ a.specialisingPipe = b.specialisingPipe) := by
  constructor
  · rintro ⟨hab, hba⟩
    have h := keyLt_total a b hab hba
    rw [h]
    exact ⟨rfl, rfl⟩
  · rintro ⟨he, hp⟩
    have h : a = b := by
      cases a
      cases b
      simp only at he hp
      rw [he, hp]
    rw [h]
    exact ⟨keyLt_irrefl b, keyLt_irrefl b⟩

/-- C16: with `<` on entry point strings and on identifiers linear orders,
`ShaderModuleReflectionKey::operator<` is a strict total order on keys: it is irreflexive and
transitive, any two keys are ordered one way or are equal, it is the lexicographic order (entry
point first, then pipeline identifier), and two keys are unordered exactly when their entry
points are equal and their pipeline identifiers are equal.  Hence key equivalence in the cache is
equality of keys, and a lookup finds a value under a key exactly when the cache holds that
key with that value: two different keys are never merged. -/
theorem ShaderModuleReflectionKey.lt_is_strict_total_order :
    (∀ a : ShaderModuleReflectionKey S Id, a.lt a = false) ∧
    (∀ a b c : ShaderModuleReflectionKey S Id, a.lt b = true → b.lt c = true → a.lt c = true) ∧
    (∀ a b : ShaderModuleReflectionKey S Id, a.lt b = true ∨ a = b ∨ b.lt a = true) ∧
    (∀ a b : ShaderModuleReflectionKey S Id, a.lt b = true → b.lt a = false) ∧
    (∀ a b : ShaderModuleReflectionKey S Id, a.lt b = true ↔
      a.entryPoint < b.entryPoint ∨
        (a.entryPoint = b.entryPoint ∧ a.specialisingPipe < b.specialisingPipe)) ∧
    (∀ a b : ShaderModuleReflectionKey S Id, (a.lt b = false ∧ b.lt a = false) ↔
      (a.entryPoint = b.entryPoint ∧ a.specialisingPipe = b.specialisingPipe)) ∧
    (∀ a b : ShaderModuleReflectionKey S Id,
      keyEquiv ShaderModuleReflectionKey.lt a b = true ↔ a = b) ∧
    (∀ (R : Type) (m : StdMap (ShaderModuleReflectionKey S Id) R ShaderModuleReflectionKey.lt)
      (k : ShaderModuleReflectionKey S Id) (r : R), m.find k = some r ↔ (k, r) ∈ m.entries) := by
  refine ⟨keyLt_irrefl, keyLt_trans, keyLt_trichotomy, ?_, keyLt_eq_true_iff,
    keyLt_unordered_iff, keyEquiv_iff_eq _, ?_⟩
  · intro a b hab
    cases hba : b.lt a with
    | false => rfl
    | true =>
      have haa := keyLt_trans a b a hab hba
      rw [keyLt_irrefl a] at haa
      cases haa
  · intro R m k r
    exact ⟨StdMap.mem_of_find m k r, StdMap.find_of_mem m k r⟩

theorem ShaderModuleReflectionKey.lt_is_strict_total_order_witness :
    (⟨mainName, 0⟩ : ShaderModuleReflectionKey (List Nat) Nat).lt ⟨mainName, 7⟩ = true ∧
    (⟨mainName, 7⟩ : ShaderModuleReflectionKey (List Nat) Nat).lt ⟨[118, 115], 0⟩ = true ∧
    (⟨mainName, 0⟩ : ShaderModuleReflectionKey (List Nat) Nat).lt ⟨[118, 115], 0⟩ = true :=
  ⟨by decide, by decide,
    ShaderModuleReflectionKey.lt_is_strict_total_order.2.1 ⟨mainName, 0⟩ ⟨mainName, 7⟩
      ⟨[118, 115], 0⟩ (by decide) (by decide)⟩

end KeyOrder

/-! ## Frame of `ShaderModule::GetReflection` -/

section ReflectionFrame

theorem insertEntries_perm {K V : Type} (lt : K → K → Bool) (k : K) (v : V) (l : List (K × V))
    (h : findEntries lt k l = none) : (insertEntries lt k v l).Perm ((k, v) :: l) := by
  induction l with
  | nil => exact List.Perm.refl _
  | cons e t ih =>
    cases hq : keyEquiv lt k e.1 with
    | true => simp [findEntries, hq] at h
    | false =>
      simp only [findEntries, hq] at h
      cases h1 : lt k e.1 with
      | true =>
        simp only [insertEntries, h1, if_true]
        exact List.Perm.refl _
      | false =>
        cases h2 : lt e.1 k with
        | true =>
          simp only [insertEntries, h1, h2, if_true]
          exact ((ih h).cons e).trans (List.Perm.swap _ _ _)
        | false => simp [keyEquiv, h1, h2] at hq

variable {S Id R Spv : Type} [LinearOrder S] [LinearOrder Id] [Inhabited Id] [Inhabited R]

theorem ShaderModule.GetReflection_snd_of_present (m : ShaderModule S Id R Spv) (e : S) (p : Id)
    (h : (∃ r, m.m_Reflections.find ⟨e, p⟩ = some r) ∨
      (∃ r, m.m_Reflections.find ⟨e, default⟩ = some r)) : (m.GetReflection e p).2 = m := by
  cases hf : m.m_Reflections.find ⟨e, p⟩ with
  | some r => rw [ShaderModule.GetReflection_of_find_some m e p r hf]
  | none =>
    rcases h with ⟨r, hr⟩ | ⟨r, hr⟩
    · rw [hf] at hr
      cases hr
    · rw [ShaderModule.GetReflection_of_find_none m e p hf, StdMap.index_of_find_some _ _ r hr]

theorem ShaderModule.GetReflection_of_absent (m : ShaderModule S Id R Spv) (e : S) (p : Id)
    (h1 : m.m_Reflections.find ⟨e, p⟩ = none) (h2 : m.m_Reflections.find ⟨e, default⟩ = none) :
    m.GetReflection e p =
      (default, { m with m_Reflections := m.m_Reflections.insert ⟨e, default⟩ default }) := by
  rw [ShaderModule.GetReflection_of_find_none m e p h1, StdMap.index_of_find_none _ _ h2]

/-- C15: `GetReflection(e, p)` leaves the module, and so its reflection cache, unchanged
whenever the cache holds the key `(e, p)` or the key `(e, null id)`.  When it holds neither, the
call returns a default-constructed reflection, the cache afterwards consists of the old entries
and exactly one new entry, that default-constructed reflection under `(e, null id)`, and every
other key is looked up as before.  In every case the lookup of a key with a non-null pipeline
is unchanged, so no entry is created under such a key. -/
theorem ShaderModule.GetReflection_changes_only_generic_key (m : ShaderModule S Id R Spv)
    (e : S) (p : Id) :
    ((∃ r, ((⟨e, p⟩ : ShaderModuleReflectionKey S Id), r) ∈ m.m_Reflections.entries) ∨
        (∃ r, ((⟨e, default⟩ : ShaderModuleReflectionKey S Id), r) ∈ m.m_Reflections.entries) →
      (m.GetReflection e p).2 = m) ∧
    ((∀ r, ((⟨e, p⟩ : ShaderModuleReflectionKey S Id), r) ∉ m.m_Reflections.entries) →
      (∀ r, ((⟨e, default⟩ : ShaderModuleReflectionKey S Id), r) ∉ m.m_Reflections.entries) →
        (m.GetReflection e p).1 = default ∧
        (m.GetReflection e p).2.spirv = m.spirv ∧
        (m.GetReflection e p).2.unstrippedPath = m.unstrippedPath ∧
        (m.GetReflection e p).2.m_Reflections.entries.Perm
          ((⟨e, default⟩, default) :: m.m_Reflections.entries) ∧
        (m.GetReflection e p).2.m_Reflections.find ⟨e, default⟩ = some default ∧
        ∀ k : ShaderModuleReflectionKey S Id, k ≠ ⟨e, default⟩ →
          (m.GetReflection e p).2.m_Reflections.find k = m.m_Reflections.find k) ∧
    (∀ k : ShaderModuleReflectionKey S Id, k.specialisingPipe ≠ default →
      (m.GetReflection e p).2.m_Reflections.find k = m.m_Reflections.find k) := by
  refine ⟨?_, ?_, ?_⟩
  · intro h
    apply ShaderModule.GetReflection_snd_of_present
    rcases h with ⟨r, hr⟩ | ⟨r, hr⟩
    · exact Or.inl ⟨r, StdMap.find_of_mem _ _ _ hr⟩
    · exact Or.inr ⟨r, StdMap.find_of_mem _ _ _ hr⟩
  · intro hp hd
    have h1 : m.m_Reflections.find ⟨e, p⟩ = none := StdMap.find_eq_none_of_not_mem _ _ hp
    have h2 : m.m_Reflections.find ⟨e, default⟩ = none := StdMap.find_eq_none_of_not_mem _ _ hd
    rw [ShaderModule.GetReflection_of_absent m e p h1 h2]
    refine ⟨rfl, rfl, rfl, insertEntries_perm _ _ _ _ h2,
      StdMap.find_insert_self _ _ _ h2, ?_⟩
    intro k hk
    exact StdMap.find_insert_ne _ _ k _ hk
  · intro k hk
    cases h1 : m.m_Reflections.find ⟨e, p⟩ with
    | some r => rw [ShaderModule.GetReflection_snd_of_present m e p (Or.inl ⟨r, h1⟩)]
    | none =>
      cases h2 : m.m_Reflections.find ⟨e, default⟩ with
      | some r => rw [ShaderModule.GetReflection_snd_of_present m e p (Or.inr ⟨r, h2⟩)]
      | none =>
        rw [ShaderModule.GetReflection_of_absent m e p h1 h2]
        apply StdMap.find_insert_ne
        intro hke
        apply hk
        rw [hke]

theorem ShaderModule.GetReflection_changes_only_generic_key_witness :
    (sampleModule.GetReflection mainName 9).2 = sampleModule ∧
    (sampleModule.GetReflection [118, 115] 9).2.m_Reflections.find ⟨[118, 115], 0⟩ = some 0 ∧
    (sampleModule.GetReflection [118, 115] 9).2.m_Reflections.find ⟨[118, 115], 9⟩ = none :=
  ⟨(ShaderModule.GetReflection_changes_only_generic_key sampleModule mainName 9).1
      (Or.inr ⟨100, by simp [sampleModule]⟩),
    ((ShaderModule.GetReflection_changes_only_generic_key sampleModule [118, 115] 9).2.1
      (by intro r; simp [sampleModule, mainName])
      (by intro r; simp [sampleModule, mainName])).2.2.2.2.1,
    by
      rw [(ShaderModule.GetReflection_changes_only_generic_key sampleModule
        [118, 115] 9).2.2 ⟨[118, 115], 9⟩ (by decide)]
      decide⟩

end ReflectionFrame

/-! ## Equality of descriptor set layouts -/

section LayoutEquality

open DescSetLayout

variable {Id : Type} [DecidableEq Id]

theorem DescSetLayout.Binding.sameAs_iff (h : Heap Id) (a b : Binding) :
    Binding.sameAs h a b = true ↔
      a.descriptorType = b.descriptorType ∧ a.descriptorCount = b.descriptorCount ∧
      a.stageFlags = b.stageFlags ∧
      a.immutableSampler.isSome = b.immutableSampler.isSome ∧
      a.samplers h = b.samplers h := by
  simp only [Binding.sameAs, Bool.and_eq_true, decide_eq_true_eq]
  constructor
  · rintro ⟨⟨⟨⟨h1, h2⟩, h3⟩, h4⟩, h5⟩
    exact ⟨h1, h2, h3, h4, h5⟩
  · rintro ⟨h1, h2, h3, h4, h5⟩
    exact ⟨⟨⟨⟨h1, h2⟩, h3⟩, h4⟩, h5⟩

theorem DescSetLayout.bindingsMatch_iff (h : Heap Id) (as bs : List Binding) :
    bindingsMatch h as bs = true ↔
      as.length = bs.length ∧
      ∀ (i : Nat) (a b : Binding), as[i]? = some a → bs[i]? = some b →
        Binding.sameAs h a b = true := by
  induction as generalizing bs with
  | nil =>
    cases bs with
    | nil => simp [bindingsMatch]
    | cons b bs => simp [bindingsMatch]
  | cons a as ih =>
    cases bs with
    | nil => simp [bindingsMatch]
    | cons b bs =>
      simp only [bindingsMatch, Bool.and_eq_true, ih bs, List.length_cons, Nat.succ.injEq]
      constructor
      · rintro ⟨hab, hlen, hrest⟩
        refine ⟨hlen, ?_⟩
        intro i x y hx hy
        cases i with
        | zero =>
          simp only [List.getElem?_cons_zero, Option.some.injEq] at hx hy
          rw [← hx, ← hy]
          exact hab
        | succ i =>
          simp only [List.getElem?_cons_succ] at hx hy
          exact hrest i x y hx hy
      · rintro ⟨hlen, hall⟩
        refine ⟨hall 0 a b (by simp) (by simp), hlen, ?_⟩
        intro i x y hx hy
        exact hall (i + 1) x y (by simpa using hx) (by simpa using hy)

/-- C11: `A == B` holds exactly when the binding sequences of `A` and `B` have the same length
and, position by position, the same `descriptorType`, `descriptorCount` and `stageFlags`, agree
on whether an immutable-sampler array is present, and hold the same identifiers in the same
order in those arrays. -/
theorem DescSetLayout.eq_iff_identical_bindings (h : Heap Id) (A B : DescSetLayout) :
    DescSetLayout.eq h A B = true ↔
      A.bindings.length = B.bindings.length ∧
      ∀ (i : Nat) (a b : Binding), A.bindings[i]? = some a → B.bindings[i]? = some b →
        a.descriptorType = b.descriptorType ∧ a.descriptorCount = b.descriptorCount ∧
        a.stageFlags = b.stageFlags ∧
        a.immutableSampler.isSome = b.immutableSampler.isSome ∧
        a.samplers h = b.samplers h := by
  simp only [DescSetLayout.eq, DescSetLayout.bindingsMatch_iff, Binding.sameAs_iff]

theorem DescSetLayout.eq_iff_identical_bindings_witness :
    DescSetLayout.eq sampleHeap
      ⟨[⟨VkDescriptorType.VK_DESCRIPTOR_TYPE_SAMPLER, 3, 1, some 0⟩], 0, 0⟩
      ⟨[⟨VkDescriptorType.VK_DESCRIPTOR_TYPE_SAMPLER, 3, 1, some 2⟩], 0, 0⟩ = true ∧
    DescSetLayout.eq sampleHeap
      ⟨[⟨VkDescriptorType.VK_DESCRIPTOR_TYPE_SAMPLER, 3, 1, some 0⟩], 0, 0⟩
      ⟨[⟨VkDescriptorType.VK_DESCRIPTOR_TYPE_SAMPLER, 3, 1, some 1⟩], 0, 0⟩ = false := by
  constructor
  · rw [DescSetLayout.eq_iff_identical_bindings]
    refine ⟨rfl, ?_⟩
    intro i a b ha hb
    cases i with
    | zero =>
      simp only [List.getElem?_cons_zero, Option.some.injEq] at ha hb
      subst ha
      subst hb
      exact ⟨rfl, rfl, rfl, rfl, by decide⟩
    | succ i => simp at ha
  · cases hq : DescSetLayout.eq sampleHeap
      ⟨[⟨VkDescriptorType.VK_DESCRIPTOR_TYPE_SAMPLER, 3, 1, some 0⟩], 0, 0⟩
      ⟨[⟨VkDescriptorType.VK_DESCRIPTOR_TYPE_SAMPLER, 3, 1, some 1⟩], 0, 0⟩ with
    | false => rfl
    | true =>
      have h := ((DescSetLayout.eq_iff_identical_bindings sampleHeap _ _).mp hq).2 0 _ _ rfl rfl
      exact absurd h.2.2.2.2 (by decide)

end LayoutEquality

/-! ## The binding slots of a layout -/

section BindingSlots

open DescSetLayout

variable (Slot : Type) [Inhabited Slot]

theorem DescSetLayout.length_slotsOfBinding (k : Nat) (b : Binding) :
    (slotsOfBinding Slot k b).length = b.descriptorCount := by
  simp [slotsOfBinding]

theorem DescSetLayout.slotsOfBinding_getElem? (k : Nat) (b : Binding) (j : Nat)
    (hj : j < b.descriptorCount) : (slotsOfBinding Slot k b)[j]? = some ⟨k, j, default⟩ := by
  simp [slotsOfBinding, List.getElem?_map, List.getElem?_range hj]

theorem DescSetLayout.mem_slotsOfBinding (k : Nat) (b : Binding) (s : BindingSlot Slot)
    (hs : s ∈ slotsOfBinding Slot k b) :
    s.binding = k ∧ s.element < b.descriptorCount ∧ s.slot = default := by
  simp only [slotsOfBinding, List.mem_map, List.mem_range] at hs
  obtain ⟨j, hj, rfl⟩ := hs
  exact ⟨rfl, hj, rfl⟩

theorem DescSetLayout.length_slotsFrom (k : Nat) (bs : List Binding) :
    (slotsFrom Slot k bs).length = (bs.map fun b => b.descriptorCount).sum := by
  induction bs generalizing k with
  | nil => rfl
  | cons b bs ih =>
    simp only [slotsFrom, List.length_append, length_slotsOfBinding, ih, List.map_cons,
      List.sum_cons]

theorem DescSetLayout.slotsFrom_getElem? (k : Nat) (bs : List Binding) (i : Nat) (b : Binding)
    (j : Nat) (hb : bs[i]? = some b) (hj : j < b.descriptorCount) :
    (slotsFrom Slot k bs)[((bs.take i).map fun x => x.descriptorCount).sum + j]? =
      some ⟨k + i, j, default⟩ := by
  induction bs generalizing k i with
  | nil => simp at hb
  | cons c cs ih =>
    cases i with
    | zero =>
      simp only [List.getElem?_cons_zero, Option.some.injEq] at hb
      subst hb
      simp only [List.take_zero, List.map_nil, List.sum_nil, Nat.zero_add, slotsFrom,
        Nat.add_zero]
      rw [List.getElem?_append_left (by rw [length_slotsOfBinding]; exact hj)]
      exact slotsOfBinding_getElem? Slot k c j hj
    | succ i =>
      simp only [List.getElem?_cons_succ] at hb
      simp only [List.take_succ_cons, List.map_cons, List.sum_cons, slotsFrom]
      rw [List.getElem?_append_right (by rw [length_slotsOfBinding]; omega),
        length_slotsOfBinding]
      have hidx : c.descriptorCount + ((cs.take i).map fun x => x.descriptorCount).sum + j -
          c.descriptorCount = ((cs.take i).map fun x => x.descriptorCount).sum + j := by
        omega
      rw [hidx, ih (k + 1) i hb]
      have hk : k + 1 + i = k + (i + 1) := by omega
      rw [hk]

theorem DescSetLayout.mem_slotsFrom (k : Nat) (bs : List Binding) (s : BindingSlot Slot)
    (hs : s ∈ slotsFrom Slot k bs) :
    k ≤ s.binding ∧ ∃ b, bs[s.binding - k]? = some b ∧ s.element < b.descriptorCount ∧
      s.slot = default := by
  induction bs generalizing k with
  | nil => simp [slotsFrom] at hs
  | cons c cs ih =>
    simp only [slotsFrom, List.mem_append] at hs
    rcases hs with hs | hs
    · obtain ⟨h1, h2, h3⟩ := mem_slotsOfBinding Slot k c s hs
      refine ⟨by omega, c, ?_, h2, h3⟩
      rw [h1]
      simp
    · obtain ⟨h1, b, h2, h3, h4⟩ := ih (k + 1) hs
      refine ⟨by omega, b, ?_, h3, h4⟩
      have hidx : s.binding - k = (s.binding - (k + 1)) + 1 := by omega
      rw [hidx, List.getElem?_cons_succ]
      exact h2

theorem DescSetLayout.pairwise_slotsOfBinding (k : Nat) (b : Binding) :
    (slotsOfBinding Slot k b).Pairwise BindingSlot.before := by
  rw [slotsOfBinding, List.pairwise_map]
  exact (List.pairwise_lt_range b.descriptorCount).imp fun h => Or.inr ⟨rfl, h⟩

theorem DescSetLayout.pairwise_slotsFrom (k : Nat) (bs : List Binding) :
    (slotsFrom Slot k bs).Pairwise BindingSlot.before := by
  induction bs generalizing k with
  | nil => exact List.Pairwise.nil
  | cons c cs ih =>
    rw [slotsFrom, List.pairwise_append]
    refine ⟨pairwise_slotsOfBinding Slot k c, ih (k + 1), ?_⟩
    intro x hx y hy
    have h1 := (mem_slotsOfBinding Slot k c x hx).1
    have h2 := (mem_slotsFrom Slot (k + 1) cs y hy).1
    exact Or.inl (by omega)

theorem DescSetLayout.bindings_of_counts_one_three_two (bs : List Binding)
    (h : (bs.map fun b => b.descriptorCount) = [1, 3, 2]) :
    ∃ b0 b1 b2, bs = [b0, b1, b2] ∧ b0.descriptorCount = 1 ∧ b1.descriptorCount = 3 ∧
      b2.descriptorCount = 2 := by
  cases bs with
  | nil => simp at h
  | cons b0 t =>
    cases t with
    | nil => simp at h
    | cons b1 t =>
      cases t with
      | nil => simp at h
      | cons b2 t =>
        cases t with
        | nil =>
          simp only [List.map_cons, List.map_nil, List.cons.injEq, and_true] at h
          exact ⟨b0, b1, b2, rfl, h.1, h.2.1, h.2.2⟩
        | cons b3 t => simp at h

/-- C12: the slot sequence produced by `CreateBindingsArray` has as many slots as the sum of
`descriptorCount` over all bindings (not as many as there are bindings).  It holds one slot per
array element of every binding: the slot of element `j` of binding `i` stands, freshly
initialised, at position `j` after the slots of the bindings before `i`, and every record of the
sequence is such a slot.  The records are in strictly ascending order of binding index and,
within one binding, of array element, so the slots of a binding form one group and the groups
follow binding-index order.  For bindings with counts 1, 3 and 2 the sequence has exactly 6
slots: one of binding 0, then three of binding 1, then two of binding 2. -/
theorem DescSetLayout.CreateBindingsArray_one_slot_per_element (L : DescSetLayout) :
    (CreateBindingsArray Slot L).length = (L.bindings.map fun b => b.descriptorCount).sum ∧
    (∀ (i : Nat) (b : Binding) (j : Nat), L.bindings[i]? = some b → j < b.descriptorCount →
      (CreateBindingsArray Slot L)[
          ((L.bindings.take i).map fun x => x.descriptorCount).sum + j]? =
        some ⟨i, j, default⟩) ∧
    (∀ s ∈ CreateBindingsArray Slot L, ∃ b, L.bindings[s.binding]? = some b ∧
      s.element < b.descriptorCount ∧ s.slot = default) ∧
    (CreateBindingsArray Slot L).Pairwise BindingSlot.before ∧
    ((L.bindings.map fun b => b.descriptorCount) = [1, 3, 2] →
      (CreateBindingsArray Slot L).length = 6 ∧
      CreateBindingsArray Slot L =
        [⟨0, 0, default⟩, ⟨1, 0, default⟩, ⟨1, 1, default⟩, ⟨1, 2, default⟩,
         ⟨2, 0, default⟩, ⟨2, 1, default⟩]) := by
  refine ⟨length_slotsFrom Slot 0 _, ?_, ?_, pairwise_slotsFrom Slot 0 _, ?_⟩
  · intro i b j hb hj
    have h := slotsFrom_getElem? Slot 0 L.bindings i b j hb hj
    rw [Nat.zero_add] at h
    exact h
  · intro s hs
    obtain ⟨_, b, hb, he, hd⟩ := mem_slotsFrom Slot 0 L.bindings s hs
    exact ⟨b, by simpa using hb, he, hd⟩
  · intro h
    constructor
    · rw [CreateBindingsArray, length_slotsFrom, h]
      rfl
    · obtain ⟨b0, b1, b2, hL, h0, h1, h2⟩ := bindings_of_counts_one_three_two L.bindings h
      simp [CreateBindingsArray, hL, slotsFrom, slotsOfBinding, h0, h1, h2, List.range_succ]

theorem DescSetLayout.CreateBindingsArray_one_slot_per_element_witness :
    (sampleLayout.bindings.map fun b => b.descriptorCount) = [1, 3, 2] ∧
    (CreateBindingsArray Nat sampleLayout).length = 6 ∧
    CreateBindingsArray Nat sampleLayout =
      [⟨0, 0, 0⟩, ⟨1, 0, 0⟩, ⟨1, 1, 0⟩, ⟨1, 2, 0⟩, ⟨2, 0, 0⟩, ⟨2, 1, 0⟩] ∧
    CreateBindingsArray Nat ⟨sampleLayout.bindings.reverse, 0, 0⟩ ≠
      CreateBindingsArray Nat sampleLayout :=
  ⟨rfl,
    ((DescSetLayout.CreateBindingsArray_one_slot_per_element Nat sampleLayout).2.2.2.2 rfl).1,
    ((DescSetLayout.CreateBindingsArray_one_slot_per_element Nat sampleLayout).2.2.2.2 rfl).2,
    by decide⟩

end BindingSlots

/-! ## Application of a descriptor update template -/

section TemplateApply

open DescUpdateTemplate

variable {BufInfo ImgInfo BufView : Type}

end TemplateApply

end VkInfo
